import Mathlib

/-!
Shallow embedding of `src/SharepointAnalysis/graph_drive_scanner.py` and proofs
about its specification claims.

Modelling conventions:
* Python's dynamically-typed JSON-ish values are modelled by the inductive
  type `Json`; Python `None` is identified with JSON `null`.
* Python dictionary operations (`d.get(k)`, `d.get(k, default)`, `d[k]`) are
  modelled by `pyGet`, `pyGetD`, `pyIndex`; calling a dict method on a
  non-dict value raises (AttributeError / TypeError / KeyError), modelled by
  the `Except PyErr` monad.
* Network I/O (`client.request`) is abstracted as an oracle
  `net : String → Except PyErr Json` for GET requests and
  `post : String → Json → Except PyErr Json` for the `$batch` POST; an
  `.error` models the request raising after its internal retries.
* asyncio's cooperative single-threaded scheduling is modelled by sequential
  execution in program order; semaphores, `delay_ms` sleeps and progress-bar
  (`tqdm`) rendering affect only timing/display and are dropped.  The
  process-global live-monitor side effects (`monitor_add_details(1)` calls)
  are counted explicitly as a `Nat` where the claims require them.
-/

namespace GraphScanner

/-- JSON-ish dynamic values as manipulated by the Python source.  Objects keep
their key/value pairs in insertion order, as Python dicts do. -/
inductive Json where
  | null : Json
  | bool (b : Bool) : Json
  | num (n : Int) : Json
  | str (s : String) : Json
  | arr (elems : List Json) : Json
  | obj (fields : List (String × Json)) : Json
deriving Repr

mutual

def Json.beq : Json → Json → Bool
  | .null, .null => true
  | .bool a, .bool b => a == b
  | .num a, .num b => a == b
  | .str a, .str b => a == b
  | .arr a, .arr b => beqArr a b
  | .obj a, .obj b => beqObj a b
  | _, _ => false

def beqArr : List Json → List Json → Bool
  | [], [] => true
  | a :: as', b :: bs' => Json.beq a b && beqArr as' bs'
  | _, _ => false

def beqObj : List (String × Json) → List (String × Json) → Bool
  | [], [] => true
  | (ka, va) :: as', (kb, vb) :: bs' => ka == kb && Json.beq va vb && beqObj as' bs'
  | _, _ => false

end

mutual

theorem Json.eq_of_beq : ∀ {a b : Json}, Json.beq a b = true → a = b
  | .null, .null, _ => rfl
  | .bool _, .bool _, h => by
    simp only [Json.beq, beq_iff_eq] at h; exact h ▸ rfl
  | .num _, .num _, h => by
    simp only [Json.beq, beq_iff_eq] at h; exact h ▸ rfl
  | .str _, .str _, h => by
    simp only [Json.beq, beq_iff_eq] at h; exact h ▸ rfl
  | .arr a, .arr b, h => by
    simp only [Json.beq] at h
    exact congrArg Json.arr (eqArr_of_beqArr h)
  | .obj a, .obj b, h => by
    simp only [Json.beq] at h
    exact congrArg Json.obj (eqObj_of_beqObj h)

theorem eqArr_of_beqArr : ∀ {a b : List Json}, beqArr a b = true → a = b
  | [], [], _ => rfl
  | x :: xs, y :: ys, h => by
    simp only [beqArr, Bool.and_eq_true] at h
    exact congrArg₂ List.cons (Json.eq_of_beq h.1) (eqArr_of_beqArr h.2)

theorem eqObj_of_beqObj : ∀ {a b : List (String × Json)}, beqObj a b = true → a = b
  | [], [], _ => rfl
  | (kx, vx) :: xs, (ky, vy) :: ys, h => by
    simp only [beqObj, Bool.and_eq_true, beq_iff_eq] at h
    have h1 : (kx, vx) = (ky, vy) := by
      rw [h.1.1, Json.eq_of_beq h.1.2]
    exact congrArg₂ List.cons h1 (eqObj_of_beqObj h.2)

end

mutual

theorem Json.beq_refl : ∀ a : Json, Json.beq a a = true
  | .null => rfl
  | .bool b => by simp [Json.beq]
  | .num n => by simp [Json.beq]
  | .str s => by simp [Json.beq]
  | .arr a => by simp only [Json.beq]; exact beqArr_refl a
  | .obj a => by simp only [Json.beq]; exact beqObj_refl a

theorem beqArr_refl : ∀ a : List Json, beqArr a a = true
  | [] => rfl
  | x :: xs => by
    simp only [beqArr, Bool.and_eq_true]
    exact ⟨Json.beq_refl x, beqArr_refl xs⟩

theorem beqObj_refl : ∀ a : List (String × Json), beqObj a a = true
  | [] => rfl
  | (k, v) :: xs => by
    simp only [beqObj, Bool.and_eq_true]
    exact ⟨⟨by simp, Json.beq_refl v⟩, beqObj_refl xs⟩

end

instance : DecidableEq Json := fun a b =>
  if h : Json.beq a b = true then isTrue (Json.eq_of_beq h)
  else isFalse (fun he => h (he ▸ Json.beq_refl a))

instance {ε α : Type} [DecidableEq ε] [DecidableEq α] : DecidableEq (Except ε α) := fun a b =>
  match a, b with
  | .ok x, .ok y =>
    if h : x = y then isTrue (by rw [h]) else isFalse (fun he => h (Except.ok.inj he))
  | .error x, .error y =>
    if h : x = y then isTrue (by rw [h]) else isFalse (fun he => h (Except.error.inj he))
  | .ok _, .error _ => isFalse (fun he => Except.noConfusion he)
  | .error _, .ok _ => isFalse (fun he => Except.noConfusion he)

/-- Python exceptions that the embedded code can raise. -/
inductive PyErr where
  | attributeError : PyErr
  | keyError (k : String) : PyErr
  | typeError : PyErr
  | valueError : PyErr
  | runtimeError (msg : String) : PyErr
  | netError (msg : String) : PyErr
deriving DecidableEq, Repr

/-- First-match association-list lookup (Python dicts have unique keys, so the
first match is the match for dicts we construct in insertion order). -/
def jlookup : List (String × Json) → String → Option Json
  | [], _ => none
  | (k, v) :: kvs, key => if k = key then some v else jlookup kvs key

/-- Python truthiness of a value (`if x:`). -/
def Json.truthy : Json → Bool
  | .null => false
  | .bool b => b
  | .num n => n != 0
  | .str s => s ≠ ""
  | .arr elems => !elems.isEmpty
  | .obj fields => !fields.isEmpty

/-- Whether the value is a dict (`isinstance(x, dict)`). -/
def Json.isObj : Json → Bool
  | .obj _ => true
  | _ => false

/-- Total view of `d.get(k)` for dicts; `.null` on non-dicts (only used where
the code has already established dict-ness via `isinstance`). -/
def jget (j : Json) (k : String) : Json :=
  match j with
  | .obj kvs => (jlookup kvs k).getD .null
  | _ => .null

/-- Total view of `d.get(k, default)` for dicts. -/
def jgetD (j : Json) (k : String) (default : Json) : Json :=
  match j with
  | .obj kvs => (jlookup kvs k).getD default
  | _ => default

/-- Python `x.get(k)`: AttributeError when `x` is not a dict, `None` when the
key is missing. -/
def pyGet (j : Json) (k : String) : Except PyErr Json :=
  match j with
  | .obj kvs => .ok ((jlookup kvs k).getD .null)
  | _ => .error .attributeError

/-- Python `x.get(k, default)`. -/
def pyGetD (j : Json) (k : String) (default : Json) : Except PyErr Json :=
  match j with
  | .obj kvs => .ok ((jlookup kvs k).getD default)
  | _ => .error .attributeError

/-- Python `x[k]` for a string key: KeyError when missing from a dict,
TypeError when `x` does not support string indexing. -/
def pyIndex (j : Json) (k : String) : Except PyErr Json :=
  match j with
  | .obj kvs =>
    match jlookup kvs k with
    | some v => .ok v
    | none => .error (.keyError k)
  | _ => .error .typeError

/-- Python `a or b` on values (short-circuit by truthiness). -/
def pyOr (a b : Json) : Json := if a.truthy then a else b

/-- Python `int(x)`: ints pass through, booleans coerce, decimal strings are
parsed (ValueError otherwise), everything else is a TypeError. -/
def pyInt (j : Json) : Except PyErr Int :=
  match j with
  | .num n => .ok n
  | .bool b => .ok (if b then 1 else 0)
  | .str s =>
    let core := fun (cs : List Char) =>
      if cs ≠ [] ∧ cs.all Char.isDigit then
        .ok ((cs.foldl (fun a c => a * 10 + (c.toNat - 48)) 0 : Nat) : Int)
      else (.error .valueError : Except PyErr Int)
    (match s.toList with
     | '-' :: rest => (core rest).map (fun n => -n)
     | '+' :: rest => core rest
     | cs => core cs)
  | _ => .error .typeError

/-- Python `str(x)` as used by f-string URL interpolation.  Exact for the
strings and numbers that appear as item ids; containers and `None` get an
approximate rendering (they never occur as ids in the verified claims). -/
def Json.pystr : Json → String
  | .null => "None"
  | .bool b => if b then "True" else "False"
  | .num n => toString n
  | .str s => s
  | .arr _ => "<list>"
  | .obj _ => "<dict>"

/-- Character-list prefix test (structurally recursive so that the kernel can
evaluate it inside `decide`). -/
def isPre : List Char → List Char → Bool
  | [], _ => true
  | _ :: _, [] => false
  | p :: ps, c :: cs => p == c && isPre ps cs

/-- Python substring containment `pat in s` on character lists. -/
def containsSub : List Char → List Char → Bool
  | pat, [] => isPre pat []
  | pat, c :: cs => isPre pat (c :: cs) || containsSub pat cs

/-- Python `pat in s`. -/
def strContains (s pat : String) : Bool := containsSub pat.toList s.toList

/-- Python `s.replace(old, new)` scanning left to right over non-overlapping
occurrences; the fuel argument makes the recursion structural (fuel equal to
the string length always suffices, see `pyReplace`). -/
def replaceAux (pat rep : List Char) : Nat → List Char → List Char
  | _, [] => []
  | 0, s => s
  | fuel + 1, c :: cs =>
    if pat ≠ [] ∧ isPre pat (c :: cs) then
      rep ++ replaceAux pat rep fuel (cs.drop (pat.length - 1))
    else
      c :: replaceAux pat rep fuel cs

/-- Python `s.replace(old, new)` for non-empty `old`. -/
def pyReplace (s pat rep : String) : String :=
  ⟨replaceAux pat.toList rep.toList s.toList.length s.toList⟩

/-- Python `s.rstrip("/")`. -/
def rstripSlashes (s : String) : String :=
  ⟨(s.toList.reverse.dropWhile (fun c => c = '/')).reverse⟩

/-- Python `s.endswith(t)`. -/
def strEndsWith (s t : String) : Bool := isPre t.toList.reverse s.toList.reverse

/-- Python `s.lower()` (the field names matched in the source are ASCII). -/
def lowerStr (s : String) : String := ⟨s.toList.map Char.toLower⟩

/-- build_path (graph_drive_scanner.py lines 431-438):
`parent = item.get("parentReference", {}).get("path")`; when truthy, strip
"/drive/root:" and join with the item name; otherwise return
`item.get("name", "")` unchanged. -/
def build_path (item : Json) : Except PyErr Json := do
  let pref ← pyGetD item "parentReference" (.obj [])
  let parent ← pyGet pref "path"
  if parent.truthy then
    match parent with
    | .str ps =>
      let trim := pyReplace ps "/drive/root:" ""
      if trim = "" then do
        let nm ← pyGetD item "name" (.str "")
        match nm with
        | .str n => pure (.str ("/" ++ n))
        | _ => .error .typeError
      else do
        let nm ← pyGetD item "name" (.str "")
        match nm with
        | .str n => pure (.str ((rstripSlashes trim) ++ "/" ++ n))
        | _ => .error .typeError
    | _ => .error .attributeError
  else
    pyGetD item "name" (.str "")

example : build_path (.obj [("name", .str "a.txt"),
    ("parentReference", .obj [("path", .str "/drive/root:/Docs")])]) =
    .ok (.str "/Docs/a.txt") := by decide

example : build_path (.obj [("name", .str "a.txt"),
    ("parentReference", .obj [("path", .str "/drive/root:")])]) =
    .ok (.str "/a.txt") := by decide

example : build_path (.obj [("id", .str "x"), ("parentReference", .str "weird")]) =
    .error .attributeError := by decide

/-- GraphClient configuration as far as URL construction is concerned
(`use_beta`, lines 296-306 and 332-333).  Retry configuration is modelled
separately by `ReqCfg`, because `client.request` is abstracted as a network
oracle at this layer. -/
structure Client where
  use_beta : Bool
deriving DecidableEq, Repr

/-- api_base (lines 332-333). -/
def api_base (c : Client) : String :=
  if c.use_beta then "https://graph.microsoft.com/beta"
  else "https://graph.microsoft.com/v1.0"

/-- Network oracle standing for `await client.request("GET", url)`: `.error`
models the call raising after its internal retries are exhausted. -/
abbrev Net := String → Except PyErr Json

/-- Result dict built by `fetch_file_detail` (lines 531-542) and by
`_process_batch` (lines 734-745); the two dict literals in the source are
identical.  The key set is static in the source, so the dict is modelled as a
structure; values remain dynamic `Json`. -/
structure Detail where
  id : Json
  name : Json
  path : Json
  size : Json
  isFolder : Json
  quickXorHash : Json
  sensitivityLabelId : Json
  sensitivityLabelName : Json
  createdDateTime : Json
  lastModifiedDateTime : Json
deriving DecidableEq, Repr

/-- The result/entry dict literal (lines 531-542 and 734-745): listing-derived
fields, `isFolder: False`, `size` defaulting to 0, enrichment fields `None`. -/
def listingEntry (item : Json) : Except PyErr Detail := do
  let idv ← pyGet item "id"
  let namev ← pyGet item "name"
  let pathv ← build_path item
  let sizev ← pyGetD item "size" (.num 0)
  let cdt ← pyGet item "createdDateTime"
  let mdt ← pyGet item "lastModifiedDateTime"
  pure { id := idv, name := namev, path := pathv, size := sizev,
         isFolder := .bool false, quickXorHash := .null,
         sensitivityLabelId := .null, sensitivityLabelName := .null,
         createdDateTime := cdt, lastModifiedDateTime := mdt }

/-- Lines 544-549: try to use `item["file"]["hashes"]["quickXorHash"]` from the
listing facet.  `hashes.get` on a truthy non-dict raises (uncaught here). -/
def facetHash (item : Json) (r : Detail) : Except PyErr Detail := do
  let file_facet ← pyGet item "file"
  if file_facet.truthy && file_facet.isObj then
    let hashes ← pyGet file_facet "hashes"
    if hashes.truthy then do
      let q ← pyGet hashes "quickXorHash"
      if q.truthy then do
        let q2 ← pyGet hashes "quickXorHash"
        pure { r with quickXorHash := q2 }
      else pure r
    else pure r
  else pure r

/-- Lines 551-563: if the hash is still missing and per-item GETs are enabled,
`GET .../items/{item[id]}?$select=file` inside a `try`; the `except` clause
logs a message that itself interpolates `item["id"]`, so a missing id key
re-raises KeyError out of the handler. -/
def perItemHash (client : Client) (drive_id : String) (item : Json) (net : Net)
    (no_per_item_get : Bool) (r : Detail) : Except PyErr Detail :=
  if !r.quickXorHash.truthy && !no_per_item_get then
    match (do
      let iid ← pyIndex item "id"
      let resp ← net (api_base client ++ "/drives/" ++ drive_id ++ "/items/" ++
        iid.pystr ++ "?$select=file")
      if resp.truthy && resp.isObj then
        let ff ← pyGet resp "file"
        if ff.truthy then
          let hashes ← pyGet ff "hashes"
          if hashes.truthy then do
            let q ← pyGet hashes "quickXorHash"
            if q.truthy then do
              let q2 ← pyGet hashes "quickXorHash"
              pure { r with quickXorHash := q2 }
            else pure r
          else pure r
        else pure r
      else pure r : Except PyErr Detail) with
    | .ok r2 => .ok r2
    | .error _ => do
      let _ ← pyIndex item "id"
      pure r
  else pure r

/-- Lines 565-570: the candidate listItem URLs; two when `site_id` is truthy. -/
def labelUrls (client : Client) (drive_id : String) (site_id : Option String)
    (iid : Json) : List String :=
  let u1 := api_base client ++ "/drives/" ++ drive_id ++ "/items/" ++ iid.pystr ++
    "/listItem?$expand=fields"
  match site_id with
  | some s =>
    if s ≠ "" then
      [u1, api_base client ++ "/sites/" ++ s ++ "/drives/" ++ drive_id ++
        "/items/" ++ iid.pystr ++ "/listItem?$expand=fields"]
    else [u1]
  | none => [u1]

/-- One `for k, v in fields.items()` iteration (lines 579-586). -/
def labelFieldStep (kv : String × Json) (r : Detail) : Detail :=
  let k := kv.1
  let v := kv.2
  if !v.truthy then r
  else
    let r1 :=
      if strEndsWith (lowerStr k) "id" &&
          (strContains (lowerStr k) "compliance" || strContains (lowerStr k) "label") then
        { r with sensitivityLabelId := v }
      else r
    if (strContains (lowerStr k) "label" || strContains (lowerStr k) "compliance" ||
        strEndsWith (lowerStr k) "displayname" || strEndsWith (lowerStr k) "display_name") then
      if !r1.sensitivityLabelName.truthy then { r1 with sensitivityLabelName := v }
      else r1
    else r1

/-- Lines 579-586: the per-field heuristic over `fields.items()` mutating
`sensitivityLabelId` / `sensitivityLabelName`. -/
def labelFieldsFold (kvs : List (String × Json)) (r : Detail) : Detail :=
  kvs.foldl (fun r kv => labelFieldStep kv r) r

/-- Lines 572-591: loop over the candidate URLs; every per-URL failure is
caught (`except Exception: continue`), mutations made before a failure
persist, and the loop breaks once either label field became truthy. -/
def labelUrlLoop (net : Net) : List String → Detail → Detail × Bool
  | [], r => (r, false)
  | lu :: rest, r =>
    match net lu with
    | .error _ => labelUrlLoop net rest r
    | .ok resp =>
      let fields := if resp.isObj then jget resp "fields" else Json.null
      if fields.truthy then
        match fields with
        | .obj kvs =>
          let r1 := labelFieldsFold kvs r
          if r1.sensitivityLabelId.truthy || r1.sensitivityLabelName.truthy then (r1, true)
          else labelUrlLoop net rest r1
        | _ => labelUrlLoop net rest r
      else labelUrlLoop net rest r

/-- Lines 593-602: fallback `GET ...?$select=sensitivityLabel` inside a
`try .. except: pass`; a raise inside leaves the result unchanged. -/
def labelFallback (client : Client) (drive_id : String) (iid : Json) (net : Net)
    (r : Detail) (label_found : Bool) : Detail :=
  if !label_found then
    match (do
      let resp ← net (api_base client ++ "/drives/" ++ drive_id ++ "/items/" ++
        iid.pystr ++ "?$select=sensitivityLabel")
      if resp.truthy && resp.isObj && (jget resp "sensitivityLabel").truthy then
        let sl := jget resp "sensitivityLabel"
        let slid ← pyGet sl "id"
        let nm ← pyGet sl "name"
        let dn ← pyGet sl "displayName"
        let lb ← pyGet sl "label"
        pure { r with sensitivityLabelId := slid, sensitivityLabelName := pyOr nm (pyOr dn lb) }
      else pure r : Except PyErr Detail) with
    | .ok r1 => r1
    | .error _ => r
  else r

/-- fetch_file_detail (lines 526-604).  The semaphore and `delay_ms` sleep
only affect scheduling and are dropped; `client.request` is the `net`
oracle. -/
def fetch_file_detail (client : Client) (drive_id : String) (item : Json)
    (site_id : Option String) (net : Net) (no_per_item_get : Bool) :
    Except PyErr Detail := do
  let r0 ← listingEntry item
  let r1 ← facetHash item r0
  let r2 ← perItemHash client drive_id item net no_per_item_get r1
  let iid ← pyIndex item "id"
  let (r3, label_found) := labelUrlLoop net (labelUrls client drive_id site_id iid) r2
  pure (labelFallback client drive_id iid net r3 label_found)

/-- gather_file_details (lines 608-677), sequentialised: each `_wrap` task
appends at most one result and its `finally` clause (lines 647-655) issues
exactly one `monitor_add_details(1)` call per completed item; the returned
`Nat` counts those calls.  If a `fetch_file_detail` raises, the exception
escapes `asyncio.gather`, so the function raises and its return value is
unobservable — modelled by propagating the `.error`. -/
def gather_file_details (client : Client) (drive_id : String) (files : List Json)
    (site_id : Option String) (net : Net) (no_per_item_get : Bool) :
    Except PyErr (List Detail × Nat) :=
  match files with
  | [] => .ok ([], 0)
  | it :: rest => do
    let r ← fetch_file_detail client drive_id it site_id net no_per_item_get
    let (ds, n) ← gather_file_details client drive_id rest site_id net no_per_item_get
    pure (r :: ds, n + 1)

/-- Line 702-705: the `$batch` sub-request list, one GET per item; `it["id"]`
raises KeyError (uncaught) when an item lacks an id. -/
def mkBatchRequests (drive_id : String) : List Json → Except PyErr (List (Json × String))
  | [] => .ok []
  | it :: rest => do
    let iid ← pyIndex it "id"
    let rs ← mkBatchRequests drive_id rest
    pure ((iid, "/drives/" ++ drive_id ++ "/items/" ++ iid.pystr ++
      "?$select=file,sensitivityLabel") :: rs)

/-- Line 707: `body = {"requests": reqs}`. -/
def batchBody (reqs : List (Json × String)) : Json :=
  .obj [("requests", .arr (reqs.map (fun r =>
    .obj [("id", r.1), ("method", .str "GET"), ("url", .str r.2)])))]

/-- Lines 712-726: fallback per-item fetch after an outright batch failure.
Each member is fetched with `no_per_item_get=False`; the result is appended
only when the fetch succeeds (`except` merely logs on line 718), while the
`finally` clause always emits one `monitor_add_details(1)` call. -/
def fallbackLoop (client : Client) (drive_id : String) (site_id : Option String)
    (net : Net) : List Json → List Detail × Nat
  | [] => ([], 0)
  | it :: rest =>
    let (ds, n) := fallbackLoop client drive_id site_id net rest
    match fetch_file_detail client drive_id it site_id net false with
    | .ok r => (r :: ds, n + 1)
    | .error _ => (ds, n + 1)

/-- Line 729: `resp.get("responses", []) if isinstance(resp, dict) else []`. -/
def getResponses (resp : Json) : Json :=
  if resp.isObj then jgetD resp "responses" (.arr []) else .arr []

/-- Python iteration (`for r in responses`) over a possibly non-list value:
lists yield their elements, strings yield one-character strings, dicts yield
their keys, anything else raises TypeError. -/
def iterElems : Json → Except PyErr (List Json)
  | .arr xs => .ok xs
  | .str s => .ok (s.toList.map (fun c => Json.str (String.singleton c)))
  | .obj kvs => .ok (kvs.map (fun kv => Json.str kv.1))
  | _ => .error .typeError

/-- Whether a value can be a Python dict key. -/
def hashableKey : Json → Bool
  | .arr _ => false
  | .obj _ => false
  | _ => true

/-- Line 731: `resp_map = {r.get("id"): r for r in responses}`; `r.get` raises
on non-dict entries and an unhashable id raises TypeError. -/
def buildRespMap : List Json → Except PyErr (List (Json × Json))
  | [] => .ok []
  | r :: rest => do
    let k ← pyGet r "id"
    if hashableKey k then do
      let m ← buildRespMap rest
      pure ((k, r) :: m)
    else .error .typeError

/-- Lookup in the comprehension-built dict: later entries override earlier
ones, `.get` returns `None` when absent. -/
def dictLookupLast (m : List (Json × Json)) (k : Json) : Json :=
  ((m.reverse.find? (fun kv => kv.1 = k)).map (fun kv => kv.2)).getD .null

/-- The guarded access pattern `body.get(k) if isinstance(body, dict) else
None` (lines 757 and 762). -/
def bodyGet (body : Json) (k : String) : Json :=
  if body.isObj then jget body k else Json.null

/-- Lines 732-776: handling of one item of a batch whose POST succeeded.
Returns the appended entry together with the number of
`monitor_add_details(1)` calls it caused: the missing/falsy-response branch
(lines 747-752) appends the bare entry and `continue`s WITHOUT a monitor
call; all other paths (lines 754-776) emit exactly one. -/
def processRespItem (m : List (Json × Json)) (it : Json) :
    Except PyErr (Detail × Nat) := do
  let rid ← pyIndex it "id"
  let entry ← listingEntry it
  let r := dictLookupLast m rid
  if !r.truthy then
    pure (entry, 0)
  else do
    let status := jget r "status"
    let ok2xx ← (if status.truthy then do
        let n ← pyInt status
        pure (decide (200 ≤ n) && decide (n < 300))
      else pure false : Except PyErr Bool)
    let entry2 ←
      if ok2xx then do
        let body := pyOr (jget r "body") (.obj [])
        let ff := bodyGet body "file"
        let e1 ← (if ff.truthy && ff.isObj then do
            let hashes ← pyGet ff "hashes"
            if hashes.truthy then do
              let q ← pyGet hashes "quickXorHash"
              if q.truthy then do
                let q2 ← pyGet hashes "quickXorHash"
                pure { entry with quickXorHash := q2 }
              else pure entry
            else pure entry
          else pure entry : Except PyErr Detail)
        let sl := bodyGet body "sensitivityLabel"
        if sl.truthy then do
          let slid ← pyGet sl "id"
          let nm ← pyGet sl "name"
          let dn ← pyGet sl "displayName"
          let lb ← pyGet sl "label"
          pure { e1 with sensitivityLabelId := slid, sensitivityLabelName := pyOr nm (pyOr dn lb) }
        else pure e1
      else pure entry
    pure (entry2, 1)

/-- The response-demultiplexing loop of `_process_batch` over its items. -/
def processItems (m : List (Json × Json)) : List Json → Except PyErr (List Detail × Nat)
  | [] => .ok ([], 0)
  | it :: rest => do
    let (d, k) ← processRespItem m it
    let (ds, n) ← processItems m rest
    pure (d :: ds, k + n)

/-- _process_batch (lines 696-776).  `post` abstracts
`client.request("POST", api_base + "/$batch", json=body)`; the semaphore and
`delay_ms` only gate scheduling.  Returns the entries this batch appended and
the number of `monitor_add_details(1)` calls it made. -/
def process_batch (client : Client) (drive_id : String) (site_id : Option String)
    (net : Net) (post : String → Json → Except PyErr Json) (batch_items : List Json) :
    Except PyErr (List Detail × Nat) := do
  let reqs ← mkBatchRequests drive_id batch_items
  match post (api_base client ++ "/$batch") (batchBody reqs) with
  | .error _ => pure (fallbackLoop client drive_id site_id net batch_items)
  | .ok resp => do
    let elems ← iterElems (getResponses resp)
    let m ← buildRespMap elems
    processItems m batch_items

/-- Line 694: `[files[i:i+batch_size] for i in range(0, total, batch_size)]`
for `batch_size ≥ 1` (Python raises ValueError on step 0; the CLI default is
20 and the verified claims assume `1 ≤ batch_size`). -/
def chunkedAux (bs : Nat) : Nat → List α → List (List α)
  | _, [] => []
  | 0, _ => []
  | fuel + 1, x :: xs => (x :: xs).take bs :: chunkedAux bs fuel (xs.drop (bs - 1))

/-- Chunking entry point; the fuel `xs.length` always suffices when
`1 ≤ bs`. -/
def chunked (bs : Nat) (xs : List α) : List (List α) := chunkedAux bs xs.length xs

/-- The per-batch gathering loop, sequentialised in batch order. -/
def batchLoop (client : Client) (drive_id : String) (site_id : Option String)
    (net : Net) (post : String → Json → Except PyErr Json) :
    List (List Json) → Except PyErr (List Detail × Nat)
  | [] => .ok ([], 0)
  | b :: rest => do
    let (ds, n) ← process_batch client drive_id site_id net post b
    let (ds2, n2) ← batchLoop client drive_id site_id net post rest
    pure (ds ++ ds2, n + n2)

/-- batch_gather_file_details (lines 680-783), sequentialised over the
batches; result order across concurrently-gathered batches is scheduler
dependent in the source, but sizes and the event count are
interleaving-invariant. -/
def batch_gather_file_details (client : Client) (drive_id : String)
    (files : List Json) (site_id : Option String) (batch_size : Nat) (net : Net)
    (post : String → Json → Except PyErr Json) : Except PyErr (List Detail × Nat) :=
  batchLoop client drive_id site_id net post (chunked batch_size files)

/-- Network oracle on which every GET raises (transport down / retries
exhausted). -/
def netDown : Net := fun _ => .error (.netError "connection reset")

/-- Batch POST oracle that raises outright, triggering the fallback path. -/
def postDown : String → Json → Except PyErr Json :=
  fun _ _ => .error (.netError "batch transport failure")

/-- A listing item whose `parentReference` is a (truthy) string instead of a
dict: `build_path` then calls `.get` on a string and raises AttributeError,
so `fetch_file_detail` raises on this item. -/
def itemBadParentRef : Json := .obj [("id", .str "f1"), ("parentReference", .str "weird")]

/-- A minimal well-formed file item. -/
def itemPlain : Json := .obj [("id", .str "a")]

/-- Batch POST oracle that succeeds with an empty `responses` array, so no
item has a batch response. -/
def postEmptyResponses : String → Json → Except PyErr Json :=
  fun _ _ => .ok (.obj [("responses", .arr [])])

example : fetch_file_detail ⟨false⟩ "drv" itemBadParentRef none netDown false =
    .error .attributeError := by decide

example : process_batch ⟨false⟩ "drv" none netDown postDown [itemBadParentRef] =
    .ok ([], 1) := by decide

example : batch_gather_file_details ⟨false⟩ "drv" [itemBadParentRef] none 20 netDown postDown =
    .ok ([], 1) := by decide

example : ∃ p : List Detail × Nat,
    process_batch ⟨false⟩ "drv" none netDown postEmptyResponses [itemPlain] = .ok p ∧
    p.1.length = 1 ∧ p.2 = 0 := by
  refine ⟨(⟨.str "a", .null, .str "", .num 0, .bool false, .null, .null, .null, .null, .null⟩ ::
    [], 0), by decide, rfl, rfl⟩

/-! ## GraphClient.request (lines 335-394)

The retry loop is modelled as a recursion over attempt numbers.  Because the
single `attempt` counter is incremented on every retry (401 at line 352,
throttle at line 375, transport at line 394) and every retrying branch first
checks it against `max_retries`, iteration `k` of the `while` loop runs with
`attempt = k`, so the environment is an outcome per attempt number.  Sleeps
and forced token resets are recorded as an event trace; delays are modelled
as exact rationals. -/

/-- Retry-relevant GraphClient configuration (lines 296-306). -/
structure ReqCfg where
  max_retries : Nat
  fail_on_throttle : Bool
deriving DecidableEq, Repr

/-- What one attempt of `session.request` produces: an HTTP response (status,
optional Retry-After header, parsed body) or an `aiohttp.ClientError`
transport failure. -/
inductive HttpOutcome where
  | resp (status : Nat) (retryAfter : Option String) (body : Json)
  | transportError
deriving DecidableEq, Repr

/-- Observable side effects of the retry loop: forced token invalidation
(lines 349-351) and `asyncio.sleep` calls (lines 374 and 393). -/
inductive ReqEvent where
  | tokenReset
  | sleep (d : ℚ)
deriving DecidableEq, Repr

/-- Terminal result of `GraphClient.request`: the parsed body, or a raise
(RuntimeError / ClientError after exhaustion). -/
inductive ReqResult where
  | ok (body : Json)
  | err
deriving DecidableEq, Repr

/-- Digit-string value, `none` unless the list is a non-empty all-digit
string. -/
def parseDigits (cs : List Char) : Option Nat :=
  if cs ≠ [] ∧ cs.all Char.isDigit then
    some (cs.foldl (fun a c => a * 10 + (c.toNat - 48)) 0)
  else none

/-- Python `float(s)` on plain decimal literals (optional sign, digits,
optional fraction), as an exact rational; `none` models ValueError.
Retry-After carries integer seconds in practice. -/
def pyFloatQ (s : String) : Option ℚ :=
  let signed := fun (neg : Bool) (cs : List Char) =>
    (match cs.splitOn '.' with
     | [ip] => (parseDigits ip).map (fun n => (n : ℚ))
     | [ip, fp] =>
       if ip = [] ∧ fp = [] then none
       else
         match (if ip = [] then some 0 else parseDigits ip),
               (if fp = [] then some 0 else parseDigits fp) with
         | some i, some f => some ((i : ℚ) + (f : ℚ) / ((10 : ℚ) ^ fp.length))
         | _, _ => none
     | _ => none).map (fun q => if neg then -q else q)
  match s.toList with
  | '-' :: rest => signed true rest
  | '+' :: rest => signed false rest
  | cs => signed false cs

/-- `backoff_base = 1.5` (line 338). -/
def backoffBase : ℚ := 3 / 2

/-- Lines 363-372: the throttle delay — the Retry-After header when truthy
and float-parsable, else `pow(backoff_base, attempt + 1)`. -/
def retryDelay (attempt : Nat) (ra : Option String) : ℚ :=
  match ra with
  | some s =>
    if s ≠ "" then
      match pyFloatQ s with
      | some v => v
      | none => backoffBase ^ (attempt + 1)
    else backoffBase ^ (attempt + 1)
  | none => backoffBase ^ (attempt + 1)

/-- `resp.status == 429 or 500 <= resp.status < 600` (line 355). -/
def isThrottle (s : Nat) : Bool := s == 429 || (decide (500 ≤ s) && decide (s < 600))

/-- The `while True` retry loop of GraphClient.request (lines 339-394),
from a given attempt number.  Branch order follows the source: 401 (line
346), throttle (line 355), other `>= 400` (line 378), success; the
`except aiohttp.ClientError` arm (lines 388-394) is the `transportError`
case. -/
def requestLoop (cfg : ReqCfg) (out : Nat → HttpOutcome) (attempt : Nat) :
    ReqResult × List ReqEvent :=
  match out attempt with
  | .transportError =>
    if _h : cfg.max_retries ≤ attempt then (.err, [])
    else
      let rest := requestLoop cfg out (attempt + 1)
      (rest.1, .sleep (backoffBase ^ (attempt + 1)) :: rest.2)
  | .resp status ra body =>
    if h : status = 401 ∧ attempt < cfg.max_retries then
      let rest := requestLoop cfg out (attempt + 1)
      (rest.1, .tokenReset :: rest.2)
    else if isThrottle status then
      if cfg.fail_on_throttle then (.err, [])
      else if h2 : cfg.max_retries ≤ attempt then (.err, [])
      else
        let rest := requestLoop cfg out (attempt + 1)
        (rest.1, .sleep (retryDelay attempt ra) :: rest.2)
    else if 400 ≤ status then (.err, [])
    else (.ok body, [])
termination_by cfg.max_retries - attempt
decreasing_by
  · omega
  · omega
  · omega

/-- GraphClient.request seen from attempt 0. -/
def request (cfg : ReqCfg) (out : Nat → HttpOutcome) : ReqResult × List ReqEvent :=
  requestLoop cfg out 0

/-! ## Token lifecycle (lines 296-330) -/

/-- Token state of GraphClient: `self.token` and `self.token_expiry`
(timestamps as exact rational seconds). -/
structure TokState where
  token : Option String
  token_expiry : ℚ
deriving DecidableEq

/-- The refresh condition of line 326:
`self.token is None or now + 60s >= self.token_expiry`. -/
def needsRefresh (st : TokState) (now : ℚ) : Bool :=
  st.token.isNone || decide (st.token_expiry ≤ now + 60)

/-- ensure_token (lines 323-330) under the lock.  `now` is the clock at the
condition check (line 326) and `now2` the clock after `_acquire_token`
returned (line 330), so `now ≤ now2`; `acq` is the token-endpoint outcome
(`_acquire_token`, which raises on a non-200 response).  The returned flag
records whether the single refresh was performed. -/
def ensure_token (st : TokState) (now now2 : ℚ)
    (acq : Except PyErr (String × Int)) : Except PyErr (TokState × Bool) :=
  if needsRefresh st now then
    match acq with
    | .error e => .error e
    | .ok (tok, expires_in) =>
      .ok ({ token := some tok, token_expiry := now2 + (expires_in : ℚ) }, true)
  else .ok (st, false)

/-! ## collect_folders_and_files (lines 441-523)

The listing boundary is abstracted at `list_drive_children` /
`list_item_children` (which page through `paged_get` and return one flat
list): `rootListing` is what the root listing returned and
`listChildren fid` what listing the children of the item with id `fid`
returns (`.error` models a raise, which aborts the whole traversal).
Progress bars and monitor events only render state and are dropped.  The
`while idx < len(folders)` loop has no termination guarantee in the source,
so it is embedded with a fuel parameter: `.ok none` means the loop is still
running after `fuel` iterations — `collect_folders_and_files` diverges
exactly when this holds for every fuel. -/

/-- Oracle for one full children listing of the item with the given id. -/
abbrev ListingOracle := Json → Except PyErr (List Json)

/-- The discriminator `item.get("folder") is not None` (lines 448, 488). -/
def itemIsFolder (it : Json) : Except PyErr Bool := do
  let f ← pyGet it "folder"
  pure (decide (f ≠ Json.null))

/-- The partition made by the `for c in children` append loop (lines
447-451 and 487-493): relative order is preserved within each class. -/
def partitionChildren : List Json → Except PyErr (List Json × List Json)
  | [] => .ok ([], [])
  | c :: cs => do
    let b ← itemIsFolder c
    let (fs, ls) ← partitionChildren cs
    pure (if b then (c :: fs, ls) else (fs, c :: ls))

/-- The `while idx < len(folders)` loop (lines 481-517): list the children of
`folders[idx]` (via `folder["id"]`, line 484), append new folders and files,
advance `idx`. -/
def collectLoop (listChildren : ListingOracle) :
    Nat → List Json → Nat → List Json → Except PyErr (Option (List Json × List Json))
  | 0, _, _, _ => .ok none
  | fuel + 1, folders, idx, files =>
    if h : idx < folders.length then do
      let folder := folders.get ⟨idx, h⟩
      let fid ← pyIndex folder "id"
      let children ← listChildren fid
      let (nf, nl) ← partitionChildren children
      collectLoop listChildren fuel (folders ++ nf) (idx + 1) (files ++ nl)
    else .ok (some (folders, files))

/-- collect_folders_and_files (lines 441-523). -/
def collect_folders_and_files (rootListing : List Json) (listChildren : ListingOracle)
    (fuel : Nat) : Except PyErr (Option (List Json × List Json)) := do
  let (folders0, files0) ← partitionChildren rootListing
  collectLoop listChildren fuel folders0 0 files0

/-- Total view of the folder discriminator for well-formed (dict) items. -/
def folderB (it : Json) : Bool := jget it "folder" ≠ Json.null

/-- Total view of the id for well-formed items. -/
def idOfJ (it : Json) : Json := jget it "id"

/-- Whether a dict has an "id" key at all (even with value `None`). -/
def hasIdKey (it : Json) : Bool :=
  match it with
  | .obj kvs => (jlookup kvs "id").isSome
  | _ => false

/-- An item the traversal code can handle without raising: a dict carrying an
"id" key (so `item.get("folder")` and `folder["id"]` both succeed). -/
def wfItem (it : Json) : Bool := it.isObj && hasIdKey it

/-- A finite hierarchy as the external API would serve it: an item at each
node and its listed children. -/
inductive GTree where
  | node (item : Json) (kids : List GTree)

def GTree.item : GTree → Json
  | .node it _ => it

def GTree.kids : GTree → List GTree
  | .node _ ks => ks

mutual

def GTree.beq : GTree → GTree → Bool
  | .node a ks, .node b ls => Json.beq a b && beqForest ks ls

def beqForest : List GTree → List GTree → Bool
  | [], [] => true
  | t :: ts, u :: us => GTree.beq t u && beqForest ts us
  | _, _ => false

end

mutual

theorem eq_of_beqTree : ∀ {a b : GTree}, GTree.beq a b = true → a = b
  | .node a ks, .node b ls, h => by
    rw [GTree.beq, Bool.and_eq_true] at h
    rw [Json.eq_of_beq h.1, eqForest_of_beqForest h.2]

theorem eqForest_of_beqForest : ∀ {a b : List GTree}, beqForest a b = true → a = b
  | [], [], _ => rfl
  | t :: ts, u :: us, h => by
    rw [beqForest, Bool.and_eq_true] at h
    rw [eq_of_beqTree h.1, eqForest_of_beqForest h.2]

end

mutual

theorem beqTree_refl : ∀ a : GTree, GTree.beq a a = true
  | .node a ks => by
    rw [GTree.beq, Bool.and_eq_true]
    exact ⟨Json.beq_refl a, beqForest_refl ks⟩

theorem beqForest_refl : ∀ a : List GTree, beqForest a a = true
  | [] => rfl
  | t :: ts => by
    rw [beqForest, Bool.and_eq_true]
    exact ⟨beqTree_refl t, beqForest_refl ts⟩

end

instance : DecidableEq GTree := fun a b =>
  if h : GTree.beq a b = true then isTrue (eq_of_beqTree h)
  else isFalse (fun he => h (he ▸ beqTree_refl a))

mutual

/-- All items of a tree, root first. -/
def GTree.nodes : GTree → List Json
  | .node it ks => it :: forestNodes ks

/-- All items of a forest, in preorder. -/
def forestNodes : List GTree → List Json
  | [] => []
  | t :: ts => t.nodes ++ forestNodes ts

end

mutual

/-- All subtrees of a tree (itself included). -/
def GTree.subtreesOf : GTree → List GTree
  | .node it ks => .node it ks :: forestSubtrees ks

/-- All subtrees of the trees of a forest. -/
def forestSubtrees : List GTree → List GTree
  | [] => []
  | t :: ts => t.subtreesOf ++ forestSubtrees ts

end

/-- Strict descendants of a tree (everything below the root). -/
def GTree.desc (t : GTree) : List Json := forestNodes t.kids

/-! ## Except-monad helper lemmas -/

@[simp] theorem exc_bind_ok {ε α β : Type} (a : α) (f : α → Except ε β) :
    (Except.ok a : Except ε α) >>= f = f a := rfl

@[simp] theorem exc_bind_error {ε α β : Type} (e : ε) (f : α → Except ε β) :
    (Except.error e : Except ε α) >>= f = .error e := rfl

@[simp] theorem exc_pure {ε α : Type} (a : α) : (pure a : Except ε α) = .ok a := rfl

theorem bind_ok_iff {ε α β : Type} {m : Except ε α} {f : α → Except ε β} {b : β} :
    (m >>= f) = .ok b ↔ ∃ a, m = .ok a ∧ f a = .ok b := by
  cases m with
  | error e => simp
  | ok a => simp


/-! ## Structural lemmas about trees and the traversal -/

/-- Total views of the loop's per-folder listing: the children the oracle
returned for a folder (meaningful on successful runs). -/
def okChildren (lc : ListingOracle) (p : Json) : List Json :=
  match pyIndex p "id" with
  | .ok fid =>
    match lc fid with
    | .ok cs => cs
    | .error _ => []
  | .error _ => []

/-- Total node count of a list of pending subtrees (the loop's termination
measure). -/
def sizeSum (pend : List GTree) : Nat := (pend.map (fun t => t.nodes.length)).sum

/-- Strict descendants of a list of pending subtrees: what discovery still
owes when exactly their roots are queued. -/
def descSum (pend : List GTree) : List Json := (pend.map GTree.desc).flatten

theorem jget_of_pyGet {it : Json} {k : String} {v : Json}
    (h : pyGet it k = .ok v) : jget it k = v := by
  unfold pyGet at h
  cases it <;> simp at h <;> simp [jget, h]

theorem itemIsFolder_ok {c : Json} {b : Bool} (h : itemIsFolder c = .ok b) :
    b = folderB c := by
  unfold itemIsFolder at h
  rw [bind_ok_iff] at h
  obtain ⟨v, hv, h⟩ := h
  rw [exc_pure] at h
  cases h
  rw [folderB, jget_of_pyGet hv]

theorem pyIndex_of_wf {it : Json} (h : wfItem it = true) :
    pyIndex it "id" = .ok (idOfJ it) := by
  unfold wfItem at h
  cases it <;> simp [Json.isObj, hasIdKey] at h
  rename_i kvs
  obtain ⟨v, hv⟩ := Option.isSome_iff_exists.mp h
  simp [pyIndex, idOfJ, jget, hv]

theorem isObj_of_wf {it : Json} (h : wfItem it = true) : it.isObj = true := by
  unfold wfItem at h
  exact (Bool.and_eq_true ..).mp h |>.1

theorem partitionChildren_values :
    ∀ {cs : List Json} {pr : List Json × List Json},
      partitionChildren cs = .ok pr →
      pr = (cs.filter folderB, cs.filter (fun c => !folderB c)) := by
  intro cs
  induction cs with
  | nil => intro pr h; cases h; rfl
  | cons c rest ih =>
    intro pr h
    unfold partitionChildren at h
    rw [bind_ok_iff] at h; obtain ⟨b, hb, h⟩ := h
    rw [bind_ok_iff] at h; obtain ⟨⟨fs, ls⟩, hrest, h⟩ := h
    dsimp only at h
    rw [exc_pure] at h; cases h
    have hbf := itemIsFolder_ok hb
    have := ih hrest
    rw [Prod.mk.injEq] at this
    cases hf : folderB c <;>
      simp [hbf, hf, List.filter_cons, this.1, this.2]

theorem partitionChildren_ok_of_objs :
    ∀ {cs : List Json}, (∀ c ∈ cs, c.isObj = true) →
      partitionChildren cs =
        .ok (cs.filter folderB, cs.filter (fun c => !folderB c)) := by
  intro cs
  induction cs with
  | nil => intro _; rfl
  | cons c rest ih =>
    intro hobj
    have hc : itemIsFolder c = .ok (folderB c) := by
      have := hobj c (List.mem_cons_self ..)
      cases c <;> simp [Json.isObj] at this <;>
        simp [itemIsFolder, pyGet, folderB, jget]
    unfold partitionChildren
    rw [hc, exc_bind_ok, ih (fun x hx => hobj x (List.mem_cons_of_mem _ hx)), exc_bind_ok]
    cases hf : folderB c <;> simp [List.filter_cons, hf]

mutual

theorem mem_subtreesOf_trans : ∀ (t s u : GTree),
    s ∈ t.subtreesOf → u ∈ s.subtreesOf → u ∈ t.subtreesOf
  | .node it ks, s, u, hs, hu => by
    rw [GTree.subtreesOf] at hs ⊢
    rcases List.mem_cons.mp hs with rfl | hs2
    · rw [GTree.subtreesOf] at hu
      exact hu
    · exact List.mem_cons_of_mem _ (mem_forestSubtrees_trans ks s u hs2 hu)

theorem mem_forestSubtrees_trans : ∀ (f : List GTree) (s u : GTree),
    s ∈ forestSubtrees f → u ∈ s.subtreesOf → u ∈ forestSubtrees f
  | t :: ts, s, u, hs, hu => by
    rw [forestSubtrees] at hs ⊢
    rcases List.mem_append.mp hs with hs1 | hs2
    · exact List.mem_append.mpr (Or.inl (mem_subtreesOf_trans t s u hs1 hu))
    · exact List.mem_append.mpr (Or.inr (mem_forestSubtrees_trans ts s u hs2 hu))

end

theorem self_mem_subtreesOf (t : GTree) : t ∈ t.subtreesOf := by
  cases t with
  | node it ks =>
    rw [GTree.subtreesOf]
    exact List.mem_cons_self ..

theorem mem_forestSubtrees_of_mem {f : List GTree} {t : GTree} (h : t ∈ f) :
    t ∈ forestSubtrees f := by
  induction f with
  | nil => cases h
  | cons x xs ih =>
    rw [forestSubtrees]
    rcases List.mem_cons.mp h with rfl | h2
    · exact List.mem_append.mpr (Or.inl (self_mem_subtreesOf t))
    · exact List.mem_append.mpr (Or.inr (ih h2))

theorem kid_mem_forestSubtrees {f : List GTree} {t k : GTree}
    (ht : t ∈ forestSubtrees f) (hk : k ∈ t.kids) : k ∈ forestSubtrees f := by
  refine mem_forestSubtrees_trans f t k ht ?_
  cases t with
  | node it ks =>
    rw [GTree.subtreesOf]
    exact List.mem_cons_of_mem _ (mem_forestSubtrees_of_mem hk)

theorem forestNodes_append (a b : List GTree) :
    forestNodes (a ++ b) = forestNodes a ++ forestNodes b := by
  induction a with
  | nil => rfl
  | cons t ts ih => simp [forestNodes, ih]

theorem forestNodes_length (ks : List GTree) :
    (forestNodes ks).length = sizeSum ks := by
  induction ks with
  | nil => rfl
  | cons t ts ih => simp [forestNodes, sizeSum, ih, List.length_append]

theorem nodes_length_pos (t : GTree) : 1 ≤ t.nodes.length := by
  cases t with
  | node it ks => simp [GTree.nodes]

theorem sizeSum_append (a b : List GTree) :
    sizeSum (a ++ b) = sizeSum a + sizeSum b := by
  simp [sizeSum]

theorem descSum_append (a b : List GTree) :
    descSum (a ++ b) = descSum a ++ descSum b := by
  simp [descSum]

theorem sizeSum_filter_le (p : GTree → Bool) (ks : List GTree) :
    sizeSum (ks.filter p) ≤ sizeSum ks := by
  induction ks with
  | nil => exact le_refl _
  | cons t ts ih =>
    rw [List.filter_cons]
    cases p t <;> simp [sizeSum] at ih ⊢ <;> omega

theorem descSum_cons (t : GTree) (ts : List GTree) :
    descSum (t :: ts) = t.desc ++ descSum ts := by simp [descSum]

theorem forestNodes_multiset (ks : List GTree) :
    (↑(forestNodes ks) : Multiset Json) = ↑(ks.map GTree.item) + ↑(descSum ks) := by
  induction ks with
  | nil => rfl
  | cons t ts ih =>
    have ht : t.nodes = t.item :: t.desc := by
      cases t with
      | node it ks2 => rfl
    rw [show forestNodes (t :: ts) = t.nodes ++ forestNodes ts from rfl, ht, descSum_cons,
      List.map_cons, List.cons_append]
    simp only [← Multiset.cons_coe, ← Multiset.coe_add, ← Multiset.singleton_add]
    rw [ih]
    abel

/-- Childless leaves contribute no descendants, so only the folder members of
a pending list matter for what remains to be discovered. -/
theorem descSum_filter_folders {f : List GTree} {ks : List GTree}
    (hsub : ∀ t ∈ ks, t ∈ forestSubtrees f)
    (hleaf : ∀ t ∈ forestSubtrees f, folderB t.item = false → t.kids = []) :
    (↑(descSum ks) : Multiset Json) =
      ↑(descSum (ks.filter (fun t => folderB t.item))) := by
  induction ks with
  | nil => rfl
  | cons t ts ih =>
    have iht := ih (fun x hx => hsub x (List.mem_cons_of_mem _ hx))
    rw [descSum_cons, List.filter_cons]
    cases hf : folderB t.item with
    | true =>
      rw [if_pos rfl, descSum_cons]
      simp only [← Multiset.coe_add]
      rw [iht]
    | false =>
      have hkids : t.kids = [] := hleaf t (hsub t (List.mem_cons_self ..)) hf
      have hdesc : t.desc = [] := by rw [GTree.desc, hkids]; rfl
      rw [if_neg (by simp), hdesc, List.nil_append]
      exact iht

/-- Whatever the loop does, it only ever appends: the final collections
extend the current ones. -/
theorem collectLoop_extends (lc : ListingOracle) :
    ∀ (fuel : Nat) (folders : List Json) (idx : Nat) (files : List Json) (F L : List Json),
      collectLoop lc fuel folders idx files = .ok (some (F, L)) →
      ∃ sf sl, F = folders ++ sf ∧ L = files ++ sl := by
  intro fuel
  induction fuel with
  | zero =>
    intro folders idx files F L h
    rw [collectLoop] at h
    simp at h
  | succ fuel ih =>
    intro folders idx files F L h
    rw [collectLoop] at h
    split at h
    · rw [bind_ok_iff] at h; obtain ⟨fid, _, h⟩ := h
      rw [bind_ok_iff] at h; obtain ⟨children, _, h⟩ := h
      rw [bind_ok_iff] at h; obtain ⟨⟨nf, nl⟩, _, h⟩ := h
      dsimp only at h
      obtain ⟨sf, sl, hF, hL⟩ := ih _ _ _ _ _ h
      exact ⟨nf ++ sf, nl ++ sl, by rw [hF, List.append_assoc],
        by rw [hL, List.append_assoc]⟩
    · cases h
      exact ⟨[], [], (List.append_nil _).symm, (List.append_nil _).symm⟩

/-- FIFO closed form: on a successful run from state (folders, idx, files),
the final folder list is the current one followed by, for every folder at or
after position idx IN THE FINAL LIST, the folder-children its listing
returned — and likewise the final file list appends each such folder's
leaf-children in the same queue order. -/
theorem collectLoop_closed (lc : ListingOracle) :
    ∀ (fuel : Nat) (folders : List Json) (idx : Nat) (files : List Json) (F L : List Json),
      collectLoop lc fuel folders idx files = .ok (some (F, L)) →
      idx ≤ folders.length →
      F = folders ++
          ((F.drop idx).map (fun p => (okChildren lc p).filter folderB)).flatten ∧
      L = files ++
          ((F.drop idx).map
            (fun p => (okChildren lc p).filter (fun c => !folderB c))).flatten := by
  intro fuel
  induction fuel with
  | zero =>
    intro folders idx files F L h _
    rw [collectLoop] at h
    simp at h
  | succ fuel ih =>
    intro folders idx files F L h hle
    rw [collectLoop] at h
    split at h
    · rename_i hlt
      rw [bind_ok_iff] at h; obtain ⟨fid, hfid, h⟩ := h
      rw [bind_ok_iff] at h; obtain ⟨children, hch, h⟩ := h
      rw [bind_ok_iff] at h; obtain ⟨⟨nf, nl⟩, hpart, h⟩ := h
      dsimp only at h
      obtain ⟨sf, sl, hFext, hLext⟩ := collectLoop_extends lc fuel _ _ _ _ _ h
      obtain ⟨ihF, ihL⟩ := ih _ _ _ _ _ h (by simp [List.length_append]; omega)
      have hassoc : F = folders ++ (nf ++ sf) := by rw [hFext, List.append_assoc]
      have hgetF : F.drop idx = folders.get ⟨idx, hlt⟩ :: F.drop (idx + 1) := by
        rw [hassoc, List.drop_append_of_le_length (Nat.le_of_lt hlt),
          List.drop_append_of_le_length hlt, List.drop_eq_getElem_cons hlt,
          List.cons_append, List.get_eq_getElem]
      have hok : okChildren lc (folders.get ⟨idx, hlt⟩) = children := by
        rw [okChildren, hfid]
        dsimp only
        rw [hch]
      have hvals := partitionChildren_values hpart
      rw [Prod.mk.injEq] at hvals
      constructor
      · rw [hgetF, List.map_cons, List.flatten_cons, hok, ← hvals.1, ← List.append_assoc]
        exact ihF
      · rw [hgetF, List.map_cons, List.flatten_cons, hok, ← hvals.2, ← List.append_assoc]
        exact ihL
    · rename_i hge
      cases h
      have hnil : folders.drop idx = [] :=
        List.drop_eq_nil_of_le (Nat.le_of_not_lt hge)
      refine ⟨?_, ?_⟩ <;> simp [hnil]

/-- Main traversal invariant: when the unprocessed queue suffix is the item
list of a pending list of folder subtrees, the loop terminates (with fuel
above the pending node count) and discovery still owes exactly the pending
subtrees' strict descendants. -/
theorem collectLoop_tree_run (lc : ListingOracle) (f : List GTree)
    (hwf : ∀ t ∈ forestSubtrees f, wfItem t.item = true)
    (hleaf : ∀ t ∈ forestSubtrees f, folderB t.item = false → t.kids = [])
    (horacle : ∀ t ∈ forestSubtrees f, folderB t.item = true →
      lc (idOfJ t.item) = .ok (t.kids.map GTree.item)) :
    ∀ (fuel : Nat) (pend : List GTree) (folders : List Json) (idx : Nat) (files : List Json),
      (∀ t ∈ pend, t ∈ forestSubtrees f ∧ folderB t.item = true) →
      folders.length = idx + pend.length →
      folders.drop idx = pend.map GTree.item →
      sizeSum pend < fuel →
      ∃ F L, collectLoop lc fuel folders idx files = .ok (some (F, L)) ∧
        (↑(F ++ L) : Multiset Json) = ↑(folders ++ files) + ↑(descSum pend) := by
  intro fuel
  induction fuel with
  | zero => intro pend folders idx files _ _ _ hfuel; omega
  | succ fuel ih =>
    intro pend folders idx files hpend hlen hdrop hfuel
    cases pend with
    | nil =>
      have hidx : folders.length = idx := by simpa using hlen
      refine ⟨folders, files, ?_, ?_⟩
      · rw [collectLoop, dif_neg (by omega)]
      · simp [descSum]
    | cons p rest =>
      have hlt : idx < folders.length := by simp at hlen; omega
      have hdropc : folders.drop idx = p.item :: rest.map GTree.item := by simpa using hdrop
      rw [List.drop_eq_getElem_cons hlt] at hdropc
      injection hdropc with hhead hdrop1
      have hget : folders.get ⟨idx, hlt⟩ = p.item := by
        rw [List.get_eq_getElem]; exact hhead
      have hpsub := (hpend p (List.mem_cons_self ..)).1
      have hpfld := (hpend p (List.mem_cons_self ..)).2
      have hwfp : wfItem p.item = true := hwf p hpsub
      have hfid : pyIndex p.item "id" = .ok (idOfJ p.item) := pyIndex_of_wf hwfp
      have hchl : lc (idOfJ p.item) = .ok (p.kids.map GTree.item) := horacle p hpsub hpfld
      have hkidobj : ∀ c ∈ p.kids.map GTree.item, c.isObj = true := by
        intro c hc
        obtain ⟨k, hk, rfl⟩ := List.mem_map.mp hc
        exact isObj_of_wf (hwf k (kid_mem_forestSubtrees hpsub hk))
      have hpart := partitionChildren_ok_of_objs hkidobj
      have hnfm : (p.kids.map GTree.item).filter folderB =
          (p.kids.filter (fun t => folderB t.item)).map GTree.item := by
        rw [List.filter_map]
        rfl
      have hlen' : (folders ++ (p.kids.map GTree.item).filter folderB).length =
          (idx + 1) + (rest ++ p.kids.filter (fun t => folderB t.item)).length := by
        rw [hnfm]
        simp only [List.length_append, List.length_map] at hlen ⊢
        simp at hlen
        omega
      have hnewpend : (folders ++ (p.kids.map GTree.item).filter folderB).drop (idx + 1) =
          (rest ++ p.kids.filter (fun t => folderB t.item)).map GTree.item := by
        rw [List.drop_append_of_le_length hlt, hdrop1, List.map_append, hnfm]
      have hpend' : ∀ t ∈ rest ++ p.kids.filter (fun t => folderB t.item),
          t ∈ forestSubtrees f ∧ folderB t.item = true := by
        intro t ht
        rcases List.mem_append.mp ht with h1 | h2
        · exact hpend t (List.mem_cons_of_mem _ h1)
        · have hm := List.mem_filter.mp h2
          exact ⟨kid_mem_forestSubtrees hpsub hm.1, hm.2⟩
      have hnodesp : p.nodes.length = 1 + sizeSum p.kids := by
        cases p with
        | node it ks =>
          show (GTree.nodes (.node it ks)).length = 1 + sizeSum (GTree.kids (.node it ks))
          rw [GTree.nodes, GTree.kids]
          simp only [List.length_cons, forestNodes_length]
          omega
      have hsize : sizeSum (rest ++ p.kids.filter (fun t => folderB t.item)) < fuel := by
        rw [sizeSum_append]
        have h1 : sizeSum (p.kids.filter (fun t => folderB t.item)) ≤ sizeSum p.kids :=
          sizeSum_filter_le _ _
        have h2 : sizeSum (p :: rest) = p.nodes.length + sizeSum rest := by simp [sizeSum]
        rw [h2, hnodesp] at hfuel
        omega
      obtain ⟨F, L, hrun, hms⟩ := ih (rest ++ p.kids.filter (fun t => folderB t.item))
        (folders ++ (p.kids.map GTree.item).filter folderB) (idx + 1)
        (files ++ (p.kids.map GTree.item).filter (fun c => !folderB c))
        hpend' hlen' hnewpend hsize
      refine ⟨F, L, ?_, ?_⟩
      · rw [collectLoop, dif_pos hlt]
        dsimp only
        rw [hget, hfid, exc_bind_ok, hchl, exc_bind_ok, hpart, exc_bind_ok]
        dsimp only
        exact hrun
      · rw [hms, descSum_cons, descSum_append]
        have hp1 : (↑((p.kids.map GTree.item).filter folderB ++
            (p.kids.map GTree.item).filter (fun c => !folderB c)) : Multiset Json) =
            ↑(p.kids.map GTree.item) :=
          Multiset.coe_eq_coe.mpr (List.filter_append_perm _ _)
        have hp2 : (↑(GTree.desc p) : Multiset Json) =
            ↑(p.kids.map GTree.item) + ↑(descSum p.kids) := by
          rw [GTree.desc]
          exact forestNodes_multiset p.kids
        have hp3 : (↑(descSum p.kids) : Multiset Json) =
            ↑(descSum (p.kids.filter (fun t => folderB t.item))) :=
          descSum_filter_folders (fun t ht => kid_mem_forestSubtrees hpsub ht) hleaf
        simp only [← Multiset.coe_add] at hp1 ⊢
        rw [hp2, ← hp3, ← hp1]
        abel

/-- C2: on a finite tree hierarchy (well-formed items, childless leaves,
distinct ids, with every listing call returning exactly the queried
container's children), collect_folders_and_files terminates and returns
folder and file lists whose union is a permutation of the set of nodes
reachable from the root with no duplicates; moreover the output obeys the
FIFO closed form: the file list is the root's files followed by, for each
folder of the final folder list in queue (discovery) order, that folder's
listed files — so a parent's files precede those of every later-discovered
container (and likewise for folders). -/
theorem c2_bfs_traversal (lc : ListingOracle) (f : List GTree) (rootListing : List Json)
    (hroot : rootListing = f.map GTree.item)
    (hwf : ∀ t ∈ forestSubtrees f, wfItem t.item = true)
    (hleaf : ∀ t ∈ forestSubtrees f, folderB t.item = false → t.kids = [])
    (horacle : ∀ t ∈ forestSubtrees f, folderB t.item = true →
      lc (idOfJ t.item) = .ok (t.kids.map GTree.item))
    (hnodup : ((forestNodes f).map idOfJ).Nodup) :
    ∃ fuel F L, collect_folders_and_files rootListing lc fuel = .ok (some (F, L)) ∧
      (F ++ L).Perm (forestNodes f) ∧ (F ++ L).Nodup ∧
      F = rootListing.filter folderB ++
        (F.map (fun p => (okChildren lc p).filter folderB)).flatten ∧
      L = rootListing.filter (fun c => !folderB c) ++
        (F.map (fun p => (okChildren lc p).filter (fun c => !folderB c))).flatten := by
  subst hroot
  have hrootobj : ∀ c ∈ f.map GTree.item, c.isObj = true := by
    intro c hc
    obtain ⟨t, ht, rfl⟩ := List.mem_map.mp hc
    exact isObj_of_wf (hwf t (mem_forestSubtrees_of_mem ht))
  have hpart0 := partitionChildren_ok_of_objs hrootobj
  have hnfm0 : (f.map GTree.item).filter folderB =
      (f.filter (fun t => folderB t.item)).map GTree.item := by
    rw [List.filter_map]; rfl
  obtain ⟨F, L, hrun, hms⟩ := collectLoop_tree_run lc f hwf hleaf horacle
    (sizeSum (f.filter (fun t => folderB t.item)) + 1) (f.filter (fun t => folderB t.item))
    ((f.map GTree.item).filter folderB) 0 ((f.map GTree.item).filter (fun c => !folderB c))
    (fun t ht => by
      have hm := List.mem_filter.mp ht
      exact ⟨mem_forestSubtrees_of_mem hm.1, hm.2⟩)
    (by rw [hnfm0]; simp)
    (by rw [List.drop_zero, hnfm0])
    (by omega)
  have hperm : (F ++ L).Perm (forestNodes f) := by
    refine Multiset.coe_eq_coe.mp ?_
    rw [hms]
    have hp1 : (↑((f.map GTree.item).filter folderB ++
        (f.map GTree.item).filter (fun c => !folderB c)) : Multiset Json) =
        ↑(f.map GTree.item) :=
      Multiset.coe_eq_coe.mpr (List.filter_append_perm _ _)
    have hp3 : (↑(descSum f) : Multiset Json) =
        ↑(descSum (f.filter (fun t => folderB t.item))) :=
      descSum_filter_folders (fun t ht => mem_forestSubtrees_of_mem ht) hleaf
    rw [forestNodes_multiset f, hp1, ← hp3]
  have hnd : (forestNodes f).Nodup := List.Nodup.of_map idOfJ hnodup
  obtain ⟨hclF, hclL⟩ := collectLoop_closed lc _ _ _ _ _ _ hrun (Nat.zero_le _)
  rw [List.drop_zero] at hclF hclL
  refine ⟨sizeSum (f.filter (fun t => folderB t.item)) + 1, F, L, ?_, hperm,
    (hperm.nodup_iff).mpr hnd, hclF, hclL⟩
  unfold collect_folders_and_files
  rw [hpart0, exc_bind_ok]
  exact hrun

/-- The spec's scenario forest: the root has leaves l1, l2 and container c1;
c1 has one leaf l3. -/
def c2Leaf1 : GTree := .node (.obj [("id", .str "l1")]) []

def c2Leaf2 : GTree := .node (.obj [("id", .str "l2")]) []

def c2Leaf3 : GTree := .node (.obj [("id", .str "l3")]) []

def c2Folder : GTree :=
  .node (.obj [("id", .str "c1"), ("folder", .obj [("childCount", .num 1)])]) [c2Leaf3]

def c2Forest : List GTree := [c2Leaf1, c2Leaf2, c2Folder]

/-- Listing oracle serving exactly that hierarchy. -/
def c2Listing : ListingOracle := fun j =>
  if j = .str "c1" then .ok [c2Leaf3.item] else .ok []

/-- Witness for C2 at the spec's concrete scenario. -/
theorem c2_bfs_traversal_witness :
    ∃ fuel F L,
      collect_folders_and_files (c2Forest.map GTree.item) c2Listing fuel =
        .ok (some (F, L)) ∧
      (F ++ L).Perm (forestNodes c2Forest) ∧ (F ++ L).Nodup ∧
      F = (c2Forest.map GTree.item).filter folderB ++
        (F.map (fun p => (okChildren c2Listing p).filter folderB)).flatten ∧
      L = (c2Forest.map GTree.item).filter (fun c => !folderB c) ++
        (F.map (fun p => (okChildren c2Listing p).filter (fun c => !folderB c))).flatten :=
  c2_bfs_traversal c2Listing c2Forest (c2Forest.map GTree.item) rfl
    (by decide) (by decide) (by decide) (by decide)

/-! ## C5: behaviour when the API returns a node as its own descendant -/

/-- A folder item that a degenerate hierarchy keeps returning. -/
def selfFolder : Json := .obj [("id", .str "f"), ("folder", .obj [("childCount", .num 1)])]

/-- A listing oracle violating the tree protocol: every listing returns the
same folder again, i.e. the (parentId, childId) pair ("f", "f") reappears at
every step. -/
def selfListing : ListingOracle := fun _ => .ok [selfFolder]

theorem collectLoop_selfListing_none :
    ∀ (fuel : Nat) (folders : List Json) (idx : Nat) (files : List Json),
      idx < folders.length → (∀ x ∈ folders, x = selfFolder) →
      collectLoop selfListing fuel folders idx files = .ok none := by
  intro fuel
  induction fuel with
  | zero => intro folders idx files _ _; rfl
  | succ fuel ih =>
    intro folders idx files hlt hall
    have hget : folders.get ⟨idx, hlt⟩ = selfFolder := hall _ (folders.get_mem idx hlt)
    rw [collectLoop, dif_pos hlt, hget]
    have hpart : partitionChildren [selfFolder] = .ok ([selfFolder], []) := by decide
    have hidx : pyIndex selfFolder "id" = .ok (.str "f") := by decide
    simp only [selfListing, hpart, hidx, bind, Except.bind]
    exact ih (folders ++ [selfFolder]) (idx + 1) (files ++ [])
      (by simp; omega)
      (by intro x hx
          rcases List.mem_append.mp hx with h | h
          · exact hall x h
          · simpa using h)

/-- C5: the spec demands that a reappearing (parentId, childId) pair make the
traversal abort with a StructuralError, but `collect_folders_and_files` has
no duplicate detection at all (and no StructuralError exists anywhere in the
source): on a hierarchy whose listing returns the queried folder as its own
child, the loop is still running (`.ok none`, never an abort and never a
result) after every number of iterations — the code loops forever. -/
theorem c5_self_descendant_never_terminates (fuel : Nat) :
    collect_folders_and_files [selfFolder] selfListing fuel = .ok none := by
  have h0 : partitionChildren [selfFolder] = .ok ([selfFolder], []) := by decide
  unfold collect_folders_and_files
  simp only [h0, bind, Except.bind]
  exact collectLoop_selfListing_none fuel [selfFolder] 0 []
    (by simp) (by intro x hx; simpa using hx)

/-! ## C6: ensure_token refresh condition and validity margin -/

/-- C6: `ensure_token` refreshes exactly when no token is cached or the
cached one expires within 60 seconds of the call (line 326), and — provided
the clock does not run backwards between the check and storing the result,
and the endpoint grants `expires_in ≥ 60` — the token held after the call is
valid for at least 60 seconds from the call; the refresh, when needed, is the
single `_acquire_token` invocation reflected in the returned flag. -/
theorem c6_ensure_token (st : TokState) (now now2 : ℚ) (tok : String)
    (expires_in : Int) (hle : now ≤ now2) (hexp : 60 ≤ expires_in) :
    ∃ st' b, ensure_token st now now2 (.ok (tok, expires_in)) = .ok (st', b) ∧
      (b = true ↔ (st.token = none ∨ st.token_expiry ≤ now + 60)) ∧
      st'.token.isSome = true ∧ now + 60 ≤ st'.token_expiry := by
  by_cases h : needsRefresh st now
  · refine ⟨⟨some tok, now2 + (expires_in : ℚ)⟩, true, ?_, ?_, rfl, ?_⟩
    · unfold ensure_token
      rw [if_pos h]
    · simp only [true_iff]
      simpa [needsRefresh, Option.isNone_iff_eq_none, decide_eq_true_eq] using h
    · have h60 : (60 : ℚ) ≤ (expires_in : ℚ) := by exact_mod_cast hexp
      show now + 60 ≤ now2 + (expires_in : ℚ)
      linarith
  · refine ⟨st, false, ?_, ?_, ?_, ?_⟩
    · unfold ensure_token
      rw [if_neg h]
    · simp only [Bool.false_eq_true, false_iff]
      simpa [needsRefresh, Option.isNone_iff_eq_none, decide_eq_true_eq, not_or,
        not_le] using h
    · have := h
      simp only [needsRefresh, Bool.or_eq_true, Option.isNone_iff_eq_none,
        decide_eq_true_eq] at this
      push_neg at this
      simp [Option.isSome_iff_ne_none]
      exact this.1
    · have := h
      simp only [needsRefresh, Bool.or_eq_true, Option.isNone_iff_eq_none,
        decide_eq_true_eq] at this
      push_neg at this
      linarith [this.2]

/-- Witness for C6 at a concrete stale state and a concrete grant. -/
theorem c6_ensure_token_witness :
    (0 : ℚ) ≤ (1 : ℚ) ∧ (60 : Int) ≤ 3600 ∧
    ∃ st' b, ensure_token ⟨none, 0⟩ 0 1 (.ok ("tok", 3600)) = .ok (st', b) ∧
      (b = true ↔ ((⟨none, 0⟩ : TokState).token = none ∨
        (⟨none, 0⟩ : TokState).token_expiry ≤ 0 + 60)) ∧
      st'.token.isSome = true ∧ (0 : ℚ) + 60 ≤ st'.token_expiry :=
  ⟨by norm_num, by norm_num,
    c6_ensure_token ⟨none, 0⟩ 0 1 "tok" 3600 (by norm_num) (by norm_num)⟩

/-! ## C7: throttle retry delay -/

/-- C7: on a 429/5xx response with fail-fast disabled and attempts remaining,
the loop sleeps exactly the parsed `Retry-After` value when the header is
present and parses as a number, and `1.5^(attempt+1)` seconds otherwise, and
only then issues the next attempt. -/
theorem c7_retry_after_delay (cfg : ReqCfg) (out : Nat → HttpOutcome)
    (a s : Nat) (ra : Option String) (body : Json)
    (hout : out a = .resp s ra body)
    (hs : s = 429 ∨ (500 ≤ s ∧ s < 600))
    (hff : cfg.fail_on_throttle = false)
    (hlt : a < cfg.max_retries) :
    requestLoop cfg out a =
      ((requestLoop cfg out (a + 1)).1,
        .sleep (match ra with
          | some v => (pyFloatQ v).getD (backoffBase ^ (a + 1))
          | none => backoffBase ^ (a + 1)) :: (requestLoop cfg out (a + 1)).2) := by
  have hn401 : s ≠ 401 := by rcases hs with h | h <;> omega
  have hth : isThrottle s = true := by
    rcases hs with h | h <;> simp [isThrottle, h]
  have hdelay : retryDelay a ra = (match ra with
      | some v => (pyFloatQ v).getD (backoffBase ^ (a + 1))
      | none => backoffBase ^ (a + 1)) := by
    rcases ra with _ | v
    · rfl
    · by_cases hv : v = ""
      · subst hv; rfl
      · cases hp : pyFloatQ v with
        | some x => simp [retryDelay, hv, hp]
        | none => simp [retryDelay, hv, hp]
  rw [requestLoop]
  simp [hout, hn401, hth, hff, Nat.not_le.mpr hlt, hdelay, hlt]

/-- An environment whose first attempt is throttled with `Retry-After: 7`. -/
def outRetryAfter7 : Nat → HttpOutcome := fun n =>
  if n = 0 then .resp 429 (some "7") .null else .resp 200 none (.str "payload")

/-- Witness for C7: with `Retry-After: 7` the client sleeps exactly 7 seconds
(pyFloatQ "7" = some 7) before issuing attempt 1. -/
theorem c7_retry_after_delay_witness :
    pyFloatQ "7" = some 7 ∧
    requestLoop ⟨3, false⟩ outRetryAfter7 0 =
      ((requestLoop ⟨3, false⟩ outRetryAfter7 1).1,
        .sleep ((pyFloatQ "7").getD (backoffBase ^ (0 + 1))) ::
          (requestLoop ⟨3, false⟩ outRetryAfter7 1).2) :=
  ⟨by decide,
    c7_retry_after_delay ⟨3, false⟩ outRetryAfter7 0 429 (some "7") .null rfl
      (Or.inl rfl) rfl (by decide)⟩

/-! ## C4: one shared retry budget -/

/-- The whole loop's retry trace (token resets for 401 retries, sleeps for
throttle and transport retries) never exceeds the single shared budget. -/
theorem requestLoop_trace_bounded (cfg : ReqCfg) (out : Nat → HttpOutcome) :
    ∀ (n a : Nat), cfg.max_retries - a ≤ n →
      (requestLoop cfg out a).2.length ≤ cfg.max_retries - a := by
  intro n
  induction n with
  | zero =>
    intro a ha
    rw [requestLoop]
    cases hout : out a with
    | transportError =>
      dsimp only
      split
      · simp
      · exfalso; omega
    | resp s ra body =>
      dsimp only
      split
      · exfalso; omega
      · split
        · split
          · simp
          · split
            · simp
            · exfalso; omega
        · split
          · simp
          · simp
  | succ n ih =>
    intro a ha
    rw [requestLoop]
    cases hout : out a with
    | transportError =>
      dsimp only
      split
      · simp
      · have h1 := ih (a + 1) (by omega)
        simp only [List.length_cons]
        omega
    | resp s ra body =>
      dsimp only
      split
      · have h1 := ih (a + 1) (by omega)
        simp only [List.length_cons]
        omega
      · split
        · split
          · simp
          · split
            · simp
            · have h1 := ih (a + 1) (by omega)
              simp only [List.length_cons]
              omega
        · split
          · simp
          · simp

/-- C4 (amended): GraphClient.request keeps ONE `attempt` counter shared by
401-refresh retries, 429/5xx throttle retries and transport-error retries;
the total number of retries of all three kinds in one call is bounded
together by `max_retries`. -/
theorem c4_shared_retry_budget (cfg : ReqCfg) (out : Nat → HttpOutcome) :
    (request cfg out).2.length ≤ cfg.max_retries :=
  requestLoop_trace_bounded cfg out cfg.max_retries 0 (by omega)

/-- Environment B: one 401, then the same throttle-then-success sequence as
environment `outThrottleOk`. -/
def outThrottleOk : Nat → HttpOutcome := fun n =>
  if n = 0 then .resp 429 (some "1") .null else .resp 200 none (.str "payload")

def outAuthThenThrottle : Nat → HttpOutcome := fun n =>
  if n = 0 then .resp 401 none .null else outThrottleOk (n - 1)

/-- C4 counterexample: with `max_retries = 1` the throttled run
429-then-200 succeeds, but prefixing a single 401 makes the very same
throttle situation fail — the 401 retry consumed the one shared attempt, so
401 retries are NOT tracked independently of the throttle budget. -/
theorem c4_counterexample :
    (request ⟨1, false⟩ outThrottleOk).1 = .ok (.str "payload") ∧
    (request ⟨1, false⟩ outAuthThenThrottle).1 = .err := by
  constructor <;>
    simp [request, requestLoop, outThrottleOk, outAuthThenThrottle, isThrottle]

/-! ## C10: the listing-derived Detail fields are never touched by enrichment -/

/-- The six fields of a Detail that the claim says come verbatim from the
listing item. -/
def listingFields (d : Detail) : Json × Json × Json × Json × Json × Json :=
  (d.id, d.name, d.path, d.size, d.createdDateTime, d.lastModifiedDateTime)

theorem listingEntry_spec {item : Json} {d : Detail}
    (h : listingEntry item = .ok d) :
    pyGet item "id" = .ok d.id ∧ pyGet item "name" = .ok d.name ∧
    build_path item = .ok d.path ∧ pyGetD item "size" (.num 0) = .ok d.size ∧
    pyGet item "createdDateTime" = .ok d.createdDateTime ∧
    pyGet item "lastModifiedDateTime" = .ok d.lastModifiedDateTime := by
  unfold listingEntry at h
  rw [bind_ok_iff] at h; obtain ⟨v1, h1, h⟩ := h
  rw [bind_ok_iff] at h; obtain ⟨v2, h2, h⟩ := h
  rw [bind_ok_iff] at h; obtain ⟨v3, h3, h⟩ := h
  rw [bind_ok_iff] at h; obtain ⟨v4, h4, h⟩ := h
  rw [bind_ok_iff] at h; obtain ⟨v5, h5, h⟩ := h
  rw [bind_ok_iff] at h; obtain ⟨v6, h6, h⟩ := h
  rw [exc_pure] at h
  cases h
  exact ⟨h1, h2, h3, h4, h5, h6⟩

theorem facetHash_fields {item : Json} {r r' : Detail}
    (h : facetHash item r = .ok r') : listingFields r' = listingFields r := by
  unfold facetHash at h
  rw [bind_ok_iff] at h; obtain ⟨ff, _, h⟩ := h
  split at h
  · rw [bind_ok_iff] at h; obtain ⟨hs, _, h⟩ := h
    split at h
    · rw [bind_ok_iff] at h; obtain ⟨q, _, h⟩ := h
      split at h
      · rw [bind_ok_iff] at h; obtain ⟨q2, _, h⟩ := h
        rw [exc_pure] at h; cases h; rfl
      · rw [exc_pure] at h; cases h; rfl
    · rw [exc_pure] at h; cases h; rfl
  · rw [exc_pure] at h; cases h; rfl

theorem perItemHash_fields {client : Client} {drive_id : String} {item : Json}
    {net : Net} {npg : Bool} {r r' : Detail}
    (h : perItemHash client drive_id item net npg r = .ok r') :
    listingFields r' = listingFields r := by
  unfold perItemHash at h
  split at h
  · split at h
    · rename_i r2 hinner
      cases h
      rw [bind_ok_iff] at hinner; obtain ⟨iid, _, hinner⟩ := hinner
      rw [bind_ok_iff] at hinner; obtain ⟨resp, _, hinner⟩ := hinner
      split at hinner
      · rw [bind_ok_iff] at hinner; obtain ⟨ff, _, hinner⟩ := hinner
        split at hinner
        · rw [bind_ok_iff] at hinner; obtain ⟨hs, _, hinner⟩ := hinner
          split at hinner
          · rw [bind_ok_iff] at hinner; obtain ⟨q, _, hinner⟩ := hinner
            split at hinner
            · rw [bind_ok_iff] at hinner; obtain ⟨q2, _, hinner⟩ := hinner
              rw [exc_pure] at hinner; cases hinner; rfl
            · rw [exc_pure] at hinner; cases hinner; rfl
          · rw [exc_pure] at hinner; cases hinner; rfl
        · rw [exc_pure] at hinner; cases hinner; rfl
      · rw [exc_pure] at hinner; cases hinner; rfl
    · rw [bind_ok_iff] at h; obtain ⟨_, _, h⟩ := h
      rw [exc_pure] at h; cases h; rfl
  · rw [exc_pure] at h
    cases h; rfl

theorem labelFieldStep_fields (kv : String × Json) (r : Detail) :
    listingFields (labelFieldStep kv r) = listingFields r := by
  unfold labelFieldStep
  dsimp only
  split
  · rfl
  · split
    · split
      · split <;> rfl
      · split <;> rfl
    · split <;> rfl

theorem labelFieldsFold_fields (kvs : List (String × Json)) :
    ∀ r : Detail, listingFields (labelFieldsFold kvs r) = listingFields r := by
  induction kvs with
  | nil => intro r; rfl
  | cons kv rest ih =>
    intro r
    unfold labelFieldsFold at ih ⊢
    rw [List.foldl_cons]
    rw [ih (labelFieldStep kv r), labelFieldStep_fields]

theorem labelUrlLoop_fields (net : Net) :
    ∀ (urls : List String) (r : Detail),
      listingFields (labelUrlLoop net urls r).1 = listingFields r := by
  intro urls
  induction urls with
  | nil => intro r; rfl
  | cons lu rest ih =>
    intro r
    unfold labelUrlLoop
    cases net lu with
    | error e => exact ih r
    | ok resp =>
      dsimp only
      split
      · split
        · cases hfe : jget resp "fields" with
          | obj kvs =>
            dsimp only
            split
            · simpa using labelFieldsFold_fields kvs r
            · exact (ih (labelFieldsFold kvs r)).trans (labelFieldsFold_fields kvs r)
          | null => exact ih r
          | bool b => exact ih r
          | num n => exact ih r
          | str s => exact ih r
          | arr xs => exact ih r
        · exact ih r
      · exact ih r

theorem labelFallback_fields (client : Client) (drive_id : String) (iid : Json)
    (net : Net) (r : Detail) (lf : Bool) :
    listingFields (labelFallback client drive_id iid net r lf) = listingFields r := by
  unfold labelFallback
  split
  · split
    · rename_i r1 hinner
      rw [bind_ok_iff] at hinner; obtain ⟨resp, _, hinner⟩ := hinner
      split at hinner
      · rw [bind_ok_iff] at hinner; obtain ⟨slid, _, hinner⟩ := hinner
        rw [bind_ok_iff] at hinner; obtain ⟨nm, _, hinner⟩ := hinner
        rw [bind_ok_iff] at hinner; obtain ⟨dn, _, hinner⟩ := hinner
        rw [bind_ok_iff] at hinner; obtain ⟨lb, _, hinner⟩ := hinner
        rw [exc_pure] at hinner; cases hinner; rfl
      · rw [exc_pure] at hinner; cases hinner; rfl
    · rfl
  · rfl

/-- Core frame lemma for the per-item path: whatever the network returned,
the six listing-derived fields of an emitted Detail are exactly the values
taken from the listing item. -/
theorem fetch_file_detail_fields {client : Client} {drive_id : String}
    {item : Json} {site_id : Option String} {net : Net} {npg : Bool} {d : Detail}
    (h : fetch_file_detail client drive_id item site_id net npg = .ok d) :
    pyGet item "id" = .ok d.id ∧ pyGet item "name" = .ok d.name ∧
    build_path item = .ok d.path ∧ pyGetD item "size" (.num 0) = .ok d.size ∧
    pyGet item "createdDateTime" = .ok d.createdDateTime ∧
    pyGet item "lastModifiedDateTime" = .ok d.lastModifiedDateTime := by
  unfold fetch_file_detail at h
  rw [bind_ok_iff] at h; obtain ⟨r0, h0, h⟩ := h
  rw [bind_ok_iff] at h; obtain ⟨r1, hfac, h⟩ := h
  rw [bind_ok_iff] at h; obtain ⟨r2, hper, h⟩ := h
  rw [bind_ok_iff] at h; obtain ⟨iid, hiid, h⟩ := h
  rcases hloop : labelUrlLoop net (labelUrls client drive_id site_id iid) r2 with ⟨r3, lf⟩
  rw [hloop] at h
  dsimp only at h
  rw [exc_pure] at h
  cases h
  have hfields : listingFields (labelFallback client drive_id iid net r3 lf) =
      listingFields r0 := by
    rw [labelFallback_fields]
    have h3 : listingFields r3 = listingFields r2 := by
      have := labelUrlLoop_fields net (labelUrls client drive_id site_id iid) r2
      rw [hloop] at this
      exact this
    rw [h3, perItemHash_fields hper, facetHash_fields hfac]
  simp only [listingFields, Prod.mk.injEq] at hfields
  obtain ⟨e1, e2, e3, e4, e5, e6⟩ := hfields
  obtain ⟨s1, s2, s3, s4, s5, s6⟩ := listingEntry_spec h0
  rw [e1, e2, e3, e4, e5, e6]
  exact ⟨s1, s2, s3, s4, s5, s6⟩

/-- Batch-path frame lemma: an entry emitted for an item keeps the listing
fields of that item's base entry dict. -/
theorem processRespItem_fields {m : List (Json × Json)} {it : Json} {d : Detail}
    {k : Nat} (h : processRespItem m it = .ok (d, k)) :
    ∃ e, listingEntry it = .ok e ∧ listingFields d = listingFields e := by
  unfold processRespItem at h
  rw [bind_ok_iff] at h; obtain ⟨rid, hrid, h⟩ := h
  rw [bind_ok_iff] at h; obtain ⟨entry, hent, h⟩ := h
  refine ⟨entry, hent, ?_⟩
  dsimp only at h
  split at h
  · rw [exc_pure] at h; cases h; rfl
  · rw [bind_ok_iff] at h; obtain ⟨ok2, hok2, h⟩ := h
    split at h
    · rw [bind_ok_iff] at h; obtain ⟨e1, he1, h⟩ := h
      have hfe1 : listingFields e1 = listingFields entry := by
        split at he1
        · rw [bind_ok_iff] at he1; obtain ⟨hs, _, he1⟩ := he1
          split at he1
          · rw [bind_ok_iff] at he1; obtain ⟨q, _, he1⟩ := he1
            split at he1
            · rw [bind_ok_iff] at he1; obtain ⟨q2, _, he1⟩ := he1
              rw [exc_pure] at he1; cases he1; rfl
            · rw [exc_pure] at he1; cases he1; rfl
          · rw [exc_pure] at he1; cases he1; rfl
        · rw [exc_pure] at he1; cases he1; rfl
      split at h
      · rw [bind_ok_iff] at h; obtain ⟨slid, _, h⟩ := h
        rw [bind_ok_iff] at h; obtain ⟨nm, _, h⟩ := h
        rw [bind_ok_iff] at h; obtain ⟨dn, _, h⟩ := h
        rw [bind_ok_iff] at h; obtain ⟨lb, _, h⟩ := h
        simp only [exc_pure, exc_bind_ok] at h
        cases h
        exact hfe1
      · simp only [exc_pure, exc_bind_ok] at h
        cases h
        exact hfe1
    · simp only [exc_pure, exc_bind_ok] at h
      cases h
      rfl

theorem toOption_eq_some_iff {ε α : Type} {x : Except ε α} {a : α} :
    x.toOption = some a ↔ x = .ok a := by
  cases x <;> simp [Except.toOption]

/-- The fallback loop appends exactly the successful fetches (in order) and
emits one monitor event per member no matter what. -/
theorem fallbackLoop_spec (client : Client) (drive_id : String)
    (site_id : Option String) (net : Net) :
    ∀ items : List Json,
      (fallbackLoop client drive_id site_id net items).2 = items.length ∧
      (fallbackLoop client drive_id site_id net items).1 =
        items.filterMap
          (fun it => (fetch_file_detail client drive_id it site_id net false).toOption) := by
  intro items
  induction items with
  | nil => exact ⟨rfl, rfl⟩
  | cons it rest ih =>
    obtain ⟨hn, hds⟩ := ih
    rcases hrec : fallbackLoop client drive_id site_id net rest with ⟨ds, n⟩
    rw [hrec] at hn hds
    simp only at hn hds
    unfold fallbackLoop
    rw [hrec]
    cases hf : fetch_file_detail client drive_id it site_id net false with
    | ok r => simp [List.filterMap_cons, hf, Except.toOption, hn, hds]
    | error e => simp [List.filterMap_cons, hf, Except.toOption, hn, hds]

theorem processItems_len {m : List (Json × Json)} :
    ∀ {items : List Json} {ds : List Detail} {n : Nat},
      processItems m items = .ok (ds, n) → ds.length = items.length := by
  intro items
  induction items with
  | nil =>
    intro ds n h
    unfold processItems at h
    cases h; rfl
  | cons it rest ih =>
    intro ds n h
    unfold processItems at h
    rw [bind_ok_iff] at h; obtain ⟨⟨d, k⟩, hd, h⟩ := h
    rw [bind_ok_iff] at h; obtain ⟨⟨ds2, n2⟩, hds, h⟩ := h
    dsimp only at h
    rw [exc_pure] at h; cases h
    simp [ih hds]

theorem processItems_mem {m : List (Json × Json)} :
    ∀ {items : List Json} {ds : List Detail} {n : Nat} {d : Detail},
      processItems m items = .ok (ds, n) → d ∈ ds →
      ∃ it ∈ items, ∃ k, processRespItem m it = .ok (d, k) := by
  intro items
  induction items with
  | nil =>
    intro ds n d h hmem
    unfold processItems at h
    cases h
    simp at hmem
  | cons it rest ih =>
    intro ds n d h hmem
    unfold processItems at h
    rw [bind_ok_iff] at h; obtain ⟨⟨d1, k⟩, hd, h⟩ := h
    rw [bind_ok_iff] at h; obtain ⟨⟨ds2, n2⟩, hds, h⟩ := h
    dsimp only at h
    rw [exc_pure] at h; cases h
    rcases List.mem_cons.mp hmem with rfl | hmem2
    · exact ⟨it, List.mem_cons_self .., k, hd⟩
    · obtain ⟨it2, hit2, k2, hk2⟩ := ih hds hmem2
      exact ⟨it2, List.mem_cons_of_mem _ hit2, k2, hk2⟩

theorem listingFields_transfer {it : Json} {e d : Detail}
    (he : listingEntry it = .ok e) (hf : listingFields d = listingFields e) :
    pyGet it "id" = .ok d.id ∧ pyGet it "name" = .ok d.name ∧
    build_path it = .ok d.path ∧ pyGetD it "size" (.num 0) = .ok d.size ∧
    pyGet it "createdDateTime" = .ok d.createdDateTime ∧
    pyGet it "lastModifiedDateTime" = .ok d.lastModifiedDateTime := by
  simp only [listingFields, Prod.mk.injEq] at hf
  obtain ⟨e1, e2, e3, e4, e5, e6⟩ := hf
  obtain ⟨s1, s2, s3, s4, s5, s6⟩ := listingEntry_spec he
  rw [e1, e2, e3, e4, e5, e6]
  exact ⟨s1, s2, s3, s4, s5, s6⟩

/-- C10: in both per-item and batch mode an emitted Detail's id, name, path,
size, createdDateTime and lastModifiedDateTime are exactly the values derived
from the listing item (`item.get`, `build_path`, `size` defaulting to 0),
whatever the enrichment network calls returned — enrichment can only touch
quickXorHash / sensitivityLabelId / sensitivityLabelName. -/
theorem c10_listing_fields_frame :
    (∀ (client : Client) (drive_id : String) (item : Json) (site_id : Option String)
       (net : Net) (npg : Bool) (d : Detail),
       fetch_file_detail client drive_id item site_id net npg = .ok d →
       pyGet item "id" = .ok d.id ∧ pyGet item "name" = .ok d.name ∧
       build_path item = .ok d.path ∧ pyGetD item "size" (.num 0) = .ok d.size ∧
       pyGet item "createdDateTime" = .ok d.createdDateTime ∧
       pyGet item "lastModifiedDateTime" = .ok d.lastModifiedDateTime) ∧
    (∀ (client : Client) (drive_id : String) (site_id : Option String) (net : Net)
       (post : String → Json → Except PyErr Json) (items : List Json)
       (out : List Detail × Nat) (d : Detail),
       process_batch client drive_id site_id net post items = .ok out →
       d ∈ out.1 →
       ∃ it ∈ items,
         pyGet it "id" = .ok d.id ∧ pyGet it "name" = .ok d.name ∧
         build_path it = .ok d.path ∧ pyGetD it "size" (.num 0) = .ok d.size ∧
         pyGet it "createdDateTime" = .ok d.createdDateTime ∧
         pyGet it "lastModifiedDateTime" = .ok d.lastModifiedDateTime) := by
  constructor
  · intro client drive_id item site_id net npg d h
    exact fetch_file_detail_fields h
  · intro client drive_id site_id net post items out d h hmem
    unfold process_batch at h
    rw [bind_ok_iff] at h; obtain ⟨reqs, hreqs, h⟩ := h
    cases hpost : post (api_base client ++ "/$batch") (batchBody reqs) with
    | error e =>
      rw [hpost] at h
      dsimp only at h
      rw [exc_pure] at h; cases h
      have hspec := fallbackLoop_spec client drive_id site_id net items
      rw [hspec.2] at hmem
      obtain ⟨it, hit, hsome⟩ := List.mem_filterMap.mp hmem
      exact ⟨it, hit, fetch_file_detail_fields (toOption_eq_some_iff.mp hsome)⟩
    | ok resp =>
      rw [hpost] at h
      dsimp only at h
      rw [bind_ok_iff] at h; obtain ⟨elems, helems, h⟩ := h
      rw [bind_ok_iff] at h; obtain ⟨mm, hm, h⟩ := h
      rcases out with ⟨ds, n⟩
      obtain ⟨it, hit, k, hk⟩ := processItems_mem h hmem
      obtain ⟨e, he, hf⟩ := processRespItem_fields hk
      exact ⟨it, hit, listingFields_transfer he hf⟩

/-! ## Counting lemmas for C1 / C3 / C8 -/

theorem gather_file_details_spec (client : Client) (drive_id : String)
    (site_id : Option String) (net : Net) (npg : Bool) :
    ∀ {files : List Json} {ds : List Detail} {n : Nat},
      gather_file_details client drive_id files site_id net npg = .ok (ds, n) →
      ds.length = files.length ∧ n = files.length := by
  intro files
  induction files with
  | nil => intro ds n h; cases h; exact ⟨rfl, rfl⟩
  | cons it rest ih =>
    intro ds n h
    unfold gather_file_details at h
    rw [bind_ok_iff] at h; obtain ⟨r, hr, h⟩ := h
    rw [bind_ok_iff] at h; obtain ⟨⟨ds2, n2⟩, hds, h⟩ := h
    dsimp only at h
    rw [exc_pure] at h; cases h
    obtain ⟨l1, l2⟩ := ih hds
    exact ⟨by simp [l1], by simp [l2]⟩

theorem chunkedAux_join {α : Type} (bs : Nat) (hbs : 1 ≤ bs) :
    ∀ (fuel : Nat) (xs : List α), xs.length ≤ fuel →
      (chunkedAux bs fuel xs).flatten = xs := by
  intro fuel
  induction fuel with
  | zero =>
    intro xs hlen
    have hx : xs = [] := List.length_eq_zero.mp (Nat.le_zero.mp hlen)
    subst hx; rfl
  | succ fuel ih =>
    intro xs hlen
    cases xs with
    | nil => rfl
    | cons x rest =>
      obtain ⟨b, rfl⟩ : ∃ b, bs = b + 1 := ⟨bs - 1, by omega⟩
      unfold chunkedAux
      rw [List.flatten_cons, List.take_succ_cons, Nat.add_sub_cancel,
        ih (rest.drop b) (by simp only [List.length_drop]; simp at hlen; omega)]
      rw [List.cons_append, List.take_append_drop]

theorem chunked_join {α : Type} (bs : Nat) (hbs : 1 ≤ bs) (xs : List α) :
    (chunked bs xs).flatten = xs :=
  chunkedAux_join bs hbs xs.length xs (le_refl _)

theorem fallbackLoop_len_of_ok (client : Client) (drive_id : String)
    (site_id : Option String) (net : Net) :
    ∀ items : List Json,
      (∀ it ∈ items, ∃ d, fetch_file_detail client drive_id it site_id net false = .ok d) →
      (fallbackLoop client drive_id site_id net items).1.length = items.length := by
  intro items
  induction items with
  | nil => intro _; rfl
  | cons it rest ih =>
    intro hok
    obtain ⟨d, hd⟩ := hok it (List.mem_cons_self ..)
    rcases hrec : fallbackLoop client drive_id site_id net rest with ⟨ds, n⟩
    have hlen := ih (fun x hx => hok x (List.mem_cons_of_mem _ hx))
    rw [hrec] at hlen
    simp only at hlen
    unfold fallbackLoop
    rw [hrec, hd]
    simp [hlen]

theorem process_batch_len {client : Client} {drive_id : String}
    {site_id : Option String} {net : Net} {post : String → Json → Except PyErr Json}
    {items : List Json} {ds : List Detail} {n : Nat}
    (hok : ∀ it ∈ items, ∃ d, fetch_file_detail client drive_id it site_id net false = .ok d)
    (h : process_batch client drive_id site_id net post items = .ok (ds, n)) :
    ds.length = items.length := by
  unfold process_batch at h
  rw [bind_ok_iff] at h; obtain ⟨reqs, hreqs, h⟩ := h
  cases hpost : post (api_base client ++ "/$batch") (batchBody reqs) with
  | error e =>
    rw [hpost] at h; dsimp only at h
    rw [exc_pure] at h
    injection h with h2
    have hlen := fallbackLoop_len_of_ok client drive_id site_id net items hok
    rw [h2] at hlen
    simpa using hlen
  | ok resp =>
    rw [hpost] at h; dsimp only at h
    rw [bind_ok_iff] at h; obtain ⟨elems, _, h⟩ := h
    rw [bind_ok_iff] at h; obtain ⟨mm, _, h⟩ := h
    exact processItems_len h

theorem batchLoop_len {client : Client} {drive_id : String}
    {site_id : Option String} {net : Net} {post : String → Json → Except PyErr Json} :
    ∀ {bs : List (List Json)} {ds : List Detail} {n : Nat},
      (∀ b ∈ bs, ∀ it ∈ b, ∃ d, fetch_file_detail client drive_id it site_id net false = .ok d) →
      batchLoop client drive_id site_id net post bs = .ok (ds, n) →
      ds.length = bs.flatten.length := by
  intro bs
  induction bs with
  | nil => intro ds n _ h; cases h; rfl
  | cons b rest ih =>
    intro ds n hok h
    unfold batchLoop at h
    rw [bind_ok_iff] at h; obtain ⟨⟨ds1, n1⟩, hb, h⟩ := h
    rw [bind_ok_iff] at h; obtain ⟨⟨ds2, n2⟩, hrest, h⟩ := h
    dsimp only at h
    rw [exc_pure] at h; cases h
    have l1 := process_batch_len (hok b (List.mem_cons_self ..)) hb
    have l2 := ih (fun x hx => hok x (List.mem_cons_of_mem _ hx)) hrest
    simp [List.flatten_cons, l1, l2]

/-! ## C1 -/

/-- C1 counterexample: in batch mode, when the grouped POST fails outright
and the member's fallback per-item fetch itself raises (here: its
`parentReference` is a truthy non-dict, so `build_path` raises
AttributeError), the member is silently dropped: the output has 0 Details
for 1 input leaf. -/
theorem c1_counterexample :
    ∃ out : List Detail × Nat,
      batch_gather_file_details ⟨false⟩ "drv" [itemBadParentRef] none 20 netDown postDown =
        .ok out ∧
      out.1.length = 0 ∧ [itemBadParentRef].length = 1 :=
  ⟨([], 1), by decide, rfl, rfl⟩

/-- C1 (amended): in per-item mode the returned collection always has exactly
as many Details as input leaves (and one progress event each); in batch mode
this holds provided every member's per-item fallback fetch would succeed —
a member of a failed group whose fallback fetch raises is dropped. -/
theorem c1_output_size :
    (∀ (client : Client) (drive_id : String) (files : List Json)
       (site_id : Option String) (net : Net) (npg : Bool) (ds : List Detail) (n : Nat),
       gather_file_details client drive_id files site_id net npg = .ok (ds, n) →
       ds.length = files.length ∧ n = files.length) ∧
    (∀ (client : Client) (drive_id : String) (files : List Json)
       (site_id : Option String) (batch_size : Nat) (net : Net)
       (post : String → Json → Except PyErr Json) (ds : List Detail) (n : Nat),
       1 ≤ batch_size →
       (∀ it ∈ files, ∃ d, fetch_file_detail client drive_id it site_id net false = .ok d) →
       batch_gather_file_details client drive_id files site_id batch_size net post = .ok (ds, n) →
       ds.length = files.length) := by
  constructor
  · intro client drive_id files site_id net npg ds n h
    exact gather_file_details_spec client drive_id site_id net npg h
  · intro client drive_id files site_id batch_size net post ds n hbs hok h
    have hj := chunked_join batch_size hbs files
    have hlen := batchLoop_len
      (fun b hb it hit => hok it (by rw [← hj]; exact List.mem_flatten.mpr ⟨b, hb, hit⟩)) h
    rw [hj] at hlen
    exact hlen

/-- Witness for C1 at a one-leaf input whose enrichment calls all fail. -/
theorem c1_output_size_witness :
    ([⟨.str "a", .null, .str "", .num 0, .bool false, .null, .null, .null, .null,
      .null⟩] : List Detail).length = [itemPlain].length ∧ (1 : Nat) = [itemPlain].length :=
  c1_output_size.1 ⟨false⟩ "drv" [itemPlain] none netDown false _ 1 (by decide)

/-! ## C3 -/

/-- C3 counterexample: the grouped request fails outright and the single
member's fallback per-item fetch raises; the member does NOT appear in the
output (which is empty), so members of a failed group CAN be lost. -/
theorem c3_counterexample :
    ∃ out : List Detail × Nat,
      process_batch ⟨false⟩ "drv" none netDown postDown [itemBadParentRef] = .ok out ∧
      out.1 = [] ∧ out.2 = 1 ∧ [itemBadParentRef].length = 1 :=
  ⟨([], 1), by decide, rfl, rfl, rfl⟩

/-- C3 (amended): when the grouped POST fails outright, every member of the
group is re-fetched per-item; the output for the group is exactly the list of
successful fallback fetches in member order (a member whose fallback fetch
itself raises is dropped, only logged), and one progress event fires per
member regardless. -/
theorem c3_fallback_on_batch_failure (client : Client) (drive_id : String)
    (site_id : Option String) (net : Net) (post : String → Json → Except PyErr Json)
    (items : List Json) (reqs : List (Json × String)) (e : PyErr)
    (hreqs : mkBatchRequests drive_id items = .ok reqs)
    (hpost : post (api_base client ++ "/$batch") (batchBody reqs) = .error e) :
    process_batch client drive_id site_id net post items =
      .ok (items.filterMap
            (fun it => (fetch_file_detail client drive_id it site_id net false).toOption),
          items.length) := by
  unfold process_batch
  simp only [hreqs, exc_bind_ok, hpost]
  have hs := fallbackLoop_spec client drive_id site_id net items
  exact congrArg Except.ok (Prod.ext hs.2 hs.1)

/-- Witness for C3: one well-formed member, failing POST, succeeding fallback
fetch — the member appears in the output and one event fires. -/
theorem c3_fallback_on_batch_failure_witness :
    process_batch ⟨false⟩ "drv" none netDown postDown [itemPlain] =
      .ok ([itemPlain].filterMap
            (fun it => (fetch_file_detail ⟨false⟩ "drv" it none netDown false).toOption),
          [itemPlain].length) :=
  c3_fallback_on_batch_failure ⟨false⟩ "drv" none netDown postDown [itemPlain]
    [(.str "a", "/drives/drv/items/a?$select=file,sensitivityLabel")]
    (.netError "batch transport failure") (by decide) rfl

/-! ## C8 -/

theorem jget_of_pyIndex {it : Json} {k : String} {v : Json}
    (h : pyIndex it k = .ok v) : jget it k = v := by
  unfold pyIndex at h
  cases it <;> simp at h
  rename_i kvs
  cases hl : jlookup kvs k with
  | none => rw [hl] at h; simp at h
  | some w =>
    rw [hl] at h
    simp at h
    simp [jget, hl, h]

/-- In the batch response path, an item causes one `monitor_add_details(1)`
call when it has a truthy response-map entry and none otherwise. -/
theorem processRespItem_count {m : List (Json × Json)} {it : Json} {d : Detail}
    {k : Nat} (h : processRespItem m it = .ok (d, k)) :
    k = if (dictLookupLast m (jget it "id")).truthy then 1 else 0 := by
  unfold processRespItem at h
  rw [bind_ok_iff] at h; obtain ⟨rid, hrid, h⟩ := h
  rw [bind_ok_iff] at h; obtain ⟨entry, hent, h⟩ := h
  rw [jget_of_pyIndex hrid]
  dsimp only at h
  split at h
  · rename_i hcond
    rw [exc_pure] at h
    injection h with h2
    rw [if_neg]
    · exact (Prod.mk.injEq .. ▸ h2).2.symm
    · simpa using hcond
  · rename_i hcond
    rw [if_pos (by simpa using hcond)]
    rw [bind_ok_iff] at h; obtain ⟨ok2, hok2, h⟩ := h
    split at h
    · rw [bind_ok_iff] at h; obtain ⟨e1, he1, h⟩ := h
      split at h
      · rw [bind_ok_iff] at h; obtain ⟨slid, _, h⟩ := h
        rw [bind_ok_iff] at h; obtain ⟨nm, _, h⟩ := h
        rw [bind_ok_iff] at h; obtain ⟨dn, _, h⟩ := h
        rw [bind_ok_iff] at h; obtain ⟨lb, _, h⟩ := h
        simp only [exc_pure, exc_bind_ok] at h
        cases h; rfl
      · simp only [exc_pure, exc_bind_ok] at h
        cases h; rfl
    · simp only [exc_pure, exc_bind_ok] at h
      cases h; rfl

/-- C8 counterexample: the batch POST succeeds but its `responses` array has
no entry for the item; the item still completes (it is appended to the
output) yet zero `monitor_add_details(1)` calls are made — the
missing-response branch (lines 747-752) skips the monitor call that every
other completion path makes. -/
theorem c8_counterexample :
    ∃ out : List Detail × Nat,
      process_batch ⟨false⟩ "drv" none netDown postEmptyResponses [itemPlain] = .ok out ∧
      out.1.length = 1 ∧ out.2 = 0 :=
  ⟨([⟨.str "a", .null, .str "", .num 0, .bool false, .null, .null, .null, .null,
    .null⟩], 0), by decide, rfl, rfl⟩

/-- C8 (amended): exactly one `monitor_add_details(1)` call fires per
completed item in per-item mode and in the batch fallback path (success or
failure alike); in the batch response path an item fires exactly one call if
it has a truthy response entry and NONE otherwise (the missing-response
branch appends the Detail without a monitor call). -/
theorem c8_progress_events :
    (∀ (client : Client) (drive_id : String) (files : List Json)
       (site_id : Option String) (net : Net) (npg : Bool) (ds : List Detail) (n : Nat),
       gather_file_details client drive_id files site_id net npg = .ok (ds, n) →
       n = files.length) ∧
    (∀ (client : Client) (drive_id : String) (site_id : Option String) (net : Net)
       (items : List Json),
       (fallbackLoop client drive_id site_id net items).2 = items.length) ∧
    (∀ (m : List (Json × Json)) (it : Json) (d : Detail) (k : Nat),
       processRespItem m it = .ok (d, k) →
       k = if (dictLookupLast m (jget it "id")).truthy then 1 else 0) := by
  refine ⟨?_, ?_, ?_⟩
  · intro client drive_id files site_id net npg ds n h
    exact (gather_file_details_spec client drive_id site_id net npg h).2
  · intro client drive_id site_id net items
    exact (fallbackLoop_spec client drive_id site_id net items).1
  · intro m it d k h
    exact processRespItem_count h

/-- Witness for C8: an item with no batch response entry emits zero events. -/
theorem c8_progress_events_witness :
    (0 : Nat) = if (dictLookupLast [] (jget itemPlain "id")).truthy then 1 else 0 :=
  c8_progress_events.2.2 [] itemPlain
    ⟨.str "a", .null, .str "", .num 0, .bool false, .null, .null, .null, .null, .null⟩
    0 (by decide)

/-- Witness for C10: the per-item conjunct applied to a concrete item whose
enrichment calls all fail. -/
theorem c10_listing_fields_frame_witness :
    pyGet itemPlain "id" = .ok (Json.str "a") ∧
    pyGet itemPlain "name" = .ok Json.null ∧
    build_path itemPlain = .ok (.str "") ∧
    pyGetD itemPlain "size" (.num 0) = .ok (.num 0) ∧
    pyGet itemPlain "createdDateTime" = .ok Json.null ∧
    pyGet itemPlain "lastModifiedDateTime" = .ok Json.null :=
  c10_listing_fields_frame.1 ⟨false⟩ "drv" itemPlain none netDown false
    ⟨.str "a", .null, .str "", .num 0, .bool false, .null, .null, .null, .null, .null⟩
    (by decide)

end GraphScanner
